import Mathlib

/-!
Verification development for the ACG auto-routing engine.

This file gives a shallow embedding, in Lean 4, of the routing algorithms of
the ACG repository (ACG/AutoRouter.py, ACG/AutoRouterExtension.py,
ACG/AutoRouterShield.py) and proves properties of that embedding.

Modelling conventions, used throughout:
* Python floats are modelled as rationals (ℚ); the algorithms only ever use
  addition, subtraction, multiplication, comparison and rounding to three
  decimal places, all of which are exact on the values the routers handle.
* Python string enums ('+x', '-x', '+y', '-y') are modelled by the inductive
  type `Dir`; layer names stay `String`, as in the source.
* A waypoint `((x, y), layer)` (a Python pair of a coordinate pair and layer
  string) is modelled by `Pt := (ℚ × ℚ) × String`.
* Raised Python exceptions are modelled by `Except PyErr`; `PyErr` lists the
  concrete exception classes the embedded code paths can actually raise.
* Unbounded loops are modelled with explicit fuel; theorems about such loops
  are stated so that they hold for every fuel value, or for the value used.
-/

/-- Python exception classes that the embedded code paths can raise.
`valueError` covers the `raise ValueError(...)` statements in the source and
the `ValueError` that Python's `min()` raises on an empty sequence;
`keyError` covers failed dictionary lookups such as `self.vias[self.via_id]`;
`indexError` covers out-of-range list indexing. -/
inductive PyErr
  | valueError
  | keyError
  | indexError
  deriving DecidableEq, Repr

/-- The two coordinate axes; the value of the `current_dir` loop variable of
`manhattanize_point_list` ('x' or 'y'). -/
inductive Axis
  | x
  | y
  deriving DecidableEq, Repr

/-- The four cardinal routing directions '+x', '-x', '+y', '-y'
(`EZRouter.valid_directions`). -/
inductive Dir
  | px
  | mx
  | py
  | my
  deriving DecidableEq, Repr, Fintype

/-- A route waypoint: ((x, y), layer), as the Python tuples
`Tuple[Tuple[float, float], str]` used by the routers. -/
abbrev Pt := (ℚ × ℚ) × String

/-- The axis a direction travels along (`initial_direction[1]` in the
source: '+x'/'-x' travel along x, '+y'/'-y' along y). -/
def dirAxis : Dir → Axis
  | .px => .x
  | .mx => .x
  | .py => .y
  | .my => .y

/-- The coordinate of a point along a given axis. -/
def axc (ax : Axis) (p : Pt) : ℚ :=
  match ax with
  | .x => p.1.1
  | .y => p.1.2

/-- The other axis. -/
def axOther : Axis → Axis
  | .x => .y
  | .y => .x

/-- The coordinate of a point along the axis perpendicular to `ax`. -/
def perpc (ax : Axis) (p : Pt) : ℚ := axc (axOther ax) p

/-- The iterative walk of `EZRouter.manhattanize_point_list`
(ACG/AutoRouter.py, the `for next_point in points` loop): from the running
point `cur` and running preferred axis `d`, each upcoming waypoint with both
coordinate deltas nonzero is split into an intermediate point (moving along
the preferred axis first) followed by the waypoint itself, flipping the
preferred axis; a waypoint coincident with the running point on the same
layer is dropped; any other waypoint is appended directly and the preferred
axis becomes the axis it moved along (`'y'` when `dx == 0`, else `'x'`). -/
def manhWalk (d : Axis) (cur : Pt) (points : List Pt) : List Pt :=
  match points with
  | [] => []
  | next :: rest =>
    let dx := next.1.1 - cur.1.1
    let dy := next.1.2 - cur.1.2
    if dx ≠ 0 ∧ dy ≠ 0 then
      match d with
      | .x => ((cur.1.1 + dx, cur.1.2), cur.2) :: next :: manhWalk .y next rest
      | .y => ((cur.1.1, cur.1.2 + dy), cur.2) :: next :: manhWalk .x next rest
    else if dx = 0 ∧ dy = 0 ∧ next.2 = cur.2 then
      manhWalk d cur rest
    else
      next :: manhWalk (if dx = 0 then .y else .x) next rest

/-- The first deletion test of the collinear sweep of
`manhattanize_point_list` (and of `EZRouterShield.process_manh`): the three
consecutive points share their x coordinate, the middle y coordinate lies
(non-strictly) between its neighbors, and all three layers agree. -/
def badX (p0 p1 p2 : Pt) : Prop :=
  p0.1.1 = p1.1.1 ∧ p1.1.1 = p2.1.1 ∧
    ((p0.1.2 ≤ p1.1.2 ∧ p1.1.2 ≤ p2.1.2) ∨ (p0.1.2 ≥ p1.1.2 ∧ p1.1.2 ≥ p2.1.2)) ∧
    p0.2 = p1.2 ∧ p1.2 = p2.2

/-- The second deletion test of the collinear sweep: same with the two axes
exchanged. -/
def badY (p0 p1 p2 : Pt) : Prop :=
  p0.1.2 = p1.1.2 ∧ p1.1.2 = p2.1.2 ∧
    ((p0.1.1 ≤ p1.1.1 ∧ p1.1.1 ≤ p2.1.1) ∨ (p0.1.1 ≥ p1.1.1 ∧ p1.1.1 ≥ p2.1.1)) ∧
    p0.2 = p1.2 ∧ p1.2 = p2.2

/-- A middle point is deleted by the collinear sweep when either deletion
test fires (the source's `if`/`elif` pair appends the same index `i + 1`
in both branches, so the pair acts as a disjunction). -/
def bad (p0 p1 p2 : Pt) : Prop := badX p0 p1 p2 ∨ badY p0 p1 p2

instance instDecBadX (p0 p1 p2 : Pt) : Decidable (badX p0 p1 p2) :=
  inferInstanceAs (Decidable (p0.1.1 = p1.1.1 ∧ p1.1.1 = p2.1.1 ∧
    ((p0.1.2 ≤ p1.1.2 ∧ p1.1.2 ≤ p2.1.2) ∨ (p0.1.2 ≥ p1.1.2 ∧ p1.1.2 ≥ p2.1.2)) ∧
    p0.2 = p1.2 ∧ p1.2 = p2.2))

instance instDecBadY (p0 p1 p2 : Pt) : Decidable (badY p0 p1 p2) :=
  inferInstanceAs (Decidable (p0.1.2 = p1.1.2 ∧ p1.1.2 = p2.1.2 ∧
    ((p0.1.1 ≤ p1.1.1 ∧ p1.1.1 ≤ p2.1.1) ∨ (p0.1.1 ≥ p1.1.1 ∧ p1.1.1 ≥ p2.1.1)) ∧
    p0.2 = p1.2 ∧ p1.2 = p2.2))

instance instDecBad (p0 p1 p2 : Pt) : Decidable (bad p0 p1 p2) :=
  inferInstanceAs (Decidable (badX p0 p1 p2 ∨ badY p0 p1 p2))

/-- The collinear sweep of `manhattanize_point_list`, sliding window form.
The source collects `del_idx = [i+1 : test(l[i], l[i+1], l[i+2])]` over the
original list and then drops those indices; since every index `i+1 ≥ 1` is
the middle of exactly one window of the original list, and index `0` and the
last index are never collected, this is the same as keeping the head and
deciding each later element by the window it is the middle of. -/
def sweepAux : Pt → Pt → List Pt → List Pt
  | _, b, [] => [b]
  | a, b, c :: rest => (if bad a b c then [] else [b]) ++ sweepAux b c rest

/-- The collinear-removal pass (`del_idx` loop and final comprehension) of
`manhattanize_point_list`; it is the same code as the standalone
`EZRouterShield.process_manh`. -/
def removeCollinear : List Pt → List Pt
  | a :: b :: rest => a :: sweepAux a b rest
  | l => l

/-- `EZRouter.manhattanize_point_list` (ACG/AutoRouter.py): seed the
preferred axis from the initial direction, walk the waypoints, then remove
collinear interior points. -/
def manhattanize_point_list (initial_direction : Dir) (initial_point : Pt)
    (points : List Pt) : List Pt :=
  removeCollinear
    (initial_point :: manhWalk (dirAxis initial_direction) initial_point points)

/-- All consecutive pairs of a list, in order. -/
def pairs {α : Type} : List α → List (α × α)
  | a :: b :: rest => (a, b) :: pairs (b :: rest)
  | _ => []

/-- All consecutive triples of a list, in order. -/
def triples {α : Type} : List α → List (α × α × α)
  | a :: b :: c :: rest => (a, b, c) :: triples (b :: c :: rest)
  | _ => []

/-- No interior point of the list is deleted-eligible: no consecutive triple
is collinear, monotonically ordered, and on a single layer. -/
def noBadTriple (l : List Pt) : Prop := ∀ t ∈ triples l, ¬ bad t.1 t.2.1 t.2.2

/-- Two waypoints differ in at most one of the two coordinates. -/
def atMostOneAxis (p q : Pt) : Prop := p.1.1 = q.1.1 ∨ p.1.2 = q.1.2

/-- Two waypoints differ in exactly one of the two coordinates. -/
def exactlyOneAxis (p q : Pt) : Prop :=
  (p.1.1 = q.1.1 ∧ p.1.2 ≠ q.1.2) ∨ (p.1.1 ≠ q.1.1 ∧ p.1.2 = q.1.2)

/-- Invariant satisfied by every consecutive pair the walk emits: the pair
differs in at most one coordinate, and a pair that coincides in position is
a layer change. -/
def okPair (p q : Pt) : Prop := atMostOneAxis p q ∧ (p.1 = q.1 → p.2 ≠ q.2)

/-- Every consecutive pair of the list satisfies `P`. -/
def chainP {α : Type} (P : α → α → Prop) (l : List α) : Prop := ∀ t ∈ pairs l, P t.1 t.2

instance instDecNoBadTriple (l : List Pt) : Decidable (noBadTriple l) :=
  inferInstanceAs (Decidable (∀ t ∈ triples l, ¬ bad t.1 t.2.1 t.2.2))

instance instDecAtMostOne (p q : Pt) : Decidable (atMostOneAxis p q) :=
  inferInstanceAs (Decidable (p.1.1 = q.1.1 ∨ p.1.2 = q.1.2))

instance instDecExactlyOne (p q : Pt) : Decidable (exactlyOneAxis p q) :=
  inferInstanceAs (Decidable ((p.1.1 = q.1.1 ∧ p.1.2 ≠ q.1.2) ∨ (p.1.1 ≠ q.1.1 ∧ p.1.2 = q.1.2)))

instance instDecChainP {α : Type} (P : α → α → Prop) [DecidableRel P] (l : List α) :
    Decidable (chainP P l) :=
  inferInstanceAs (Decidable (∀ t ∈ pairs l, P t.1 t.2))

instance instDecEqExcept {ε α : Type} [DecidableEq ε] [DecidableEq α] :
    DecidableEq (Except ε α) := fun a b =>
  match a, b with
  | .ok x, .ok y => if h : x = y then isTrue (by rw [h]) else isFalse (by simp [h])
  | .error x, .error y => if h : x = y then isTrue (by rw [h]) else isFalse (by simp [h])
  | .ok _, .error _ => isFalse (by simp)
  | .error _, .ok _ => isFalse (by simp)

/-! ## Rounding

`EZRouterShield.add_route_points` and `EZRouter.add_route_points` store
`(round(x, 3), round(y, 3))`; Python's `round` rounds half to even. -/

/-- Python's `round` on a rational value: round half to even. -/
def pyRound (q : ℚ) : ℤ :=
  if q - Int.floor q < 1 / 2 then Int.floor q
  else if q - Int.floor q > 1 / 2 then Int.floor q + 1
  else if Int.floor q % 2 = 0 then Int.floor q else Int.floor q + 1

/-- Python's `round(q, 3)`: round half to even at the third decimal. -/
def round3 (q : ℚ) : ℚ := (pyRound (q * 1000) : ℚ) / 1000

/-- A value already on the 0.001 grid (so that `round3` leaves it fixed). -/
def aligned3 (q : ℚ) : Prop := ∃ k : ℤ, q * 1000 = k

/-! ## Direction-pair offset table and offset courses

`EZRouter.__init__` builds `self.shield_dict`, a nested dictionary keyed by
two direction strings; `EZRouterShield.__init__` builds the identical table.
`cardinal_helper` (ACG/AutoRouter.py), `EZRouterShield.bus_router` and
`EZRouterShield.diff_pair_router` read it as
`self.shield_dict[dirs[i - 1]][dirs[i]]`. -/

/-- The `shield_dict` table: `shield_dict d1 d2` is the pair stored at
`self.shield_dict[d1][d2]` in `EZRouter.__init__`. -/
def shield_dict : Dir → Dir → ℚ × ℚ
  | .px, .px => (0, 1)
  | .px, .mx => (0, 1)
  | .px, .py => (-1, 1)
  | .px, .my => (1, 1)
  | .mx, .px => (0, -1)
  | .mx, .mx => (0, -1)
  | .mx, .py => (-1, -1)
  | .mx, .my => (1, -1)
  | .py, .px => (-1, 1)
  | .py, .mx => (-1, -1)
  | .py, .py => (-1, 0)
  | .py, .my => (-1, 0)
  | .my, .px => (1, 1)
  | .my, .mx => (1, -1)
  | .my, .py => (1, 0)
  | .my, .my => (1, 0)

/-- The routing direction between two consecutive waypoints, as computed by
the `dirs` loops of `cardinal_helper`, `EZRouterShield.bus_router` and
`EZRouterExtension.bus_router`: compare x coordinates first, then y,
defaulting to '+y'. -/
def dirBetween (p q : Pt) : Dir :=
  if p.1.1 > q.1.1 then .mx
  else if p.1.1 < q.1.1 then .px
  else if p.1.2 > q.1.2 then .my
  else .py

/-- The per-segment direction sequence `dirs` of the offset-path routines. -/
def dirsOf (l : List Pt) : List Dir := (pairs l).map fun t => dirBetween t.1 t.2

/-- The initial offset direction `start` of the offset-path routines,
computed by comparing the start point with the second manhattanized point. -/
def startOffsetVec (startPt : ℚ × ℚ) (p1 : Pt) : ℚ × ℚ :=
  if startPt.1 > p1.1.1 then (0, -1)
  else if startPt.1 < p1.1.1 then (0, 1)
  else if startPt.2 > p1.1.2 then (1, 0)
  else (-1, 0)

/-- The final offset direction `end` of the offset-path routines, computed
by comparing the last two manhattanized points. -/
def endOffsetVec (pm2 pm1 : Pt) : ℚ × ℚ :=
  if pm2.1.1 > pm1.1.1 then (0, -1)
  else if pm2.1.1 < pm1.1.1 then (0, 1)
  else if pm2.1.2 > pm1.1.2 then (1, 0)
  else (-1, 0)

/-- Interior and final points of one offset course, following the
`for i in range(len(dirs))` loop bodies of `EZRouterShield.bus_router`
(and the identical `cardinal_helper` loop): walking a sliding window
`(a, b, rest)` over the primary manhattanized list, each interior point `b`
is offset by `o` times `shield_dict[dir(a,b)][dir(b,next)]` and the last
point by `o` times the `end` vector; the offset points pass through
`add_route_points`, which rounds both coordinates to three decimals, and
carry the layer of the primary point they offset. -/
def courseMid (o : ℚ) : Pt → Pt → List Pt → List Pt
  | a, b, [] =>
    [((round3 (b.1.1 + o * (endOffsetVec a b).1),
       round3 (b.1.2 + o * (endOffsetVec a b).2)), b.2)]
  | a, b, c :: rest =>
    ((round3 (b.1.1 + o * (shield_dict (dirBetween a b) (dirBetween b c)).1),
      round3 (b.1.2 + o * (shield_dict (dirBetween a b) (dirBetween b c)).2)), b.2)
      :: courseMid o b c rest

/-- One derived offset course at signed perpendicular amount `o` from a
primary manhattanized list: `i = 0` of the loop starts a fresh router at the
start point offset by `o` times the `start` vector (not rounded: it is
passed to `new_route_from_location`, not `add_route_points`); the remaining
points come from `courseMid`. A primary list with fewer than two points
makes the source raise `IndexError` at `manh[1]`; that case is modelled as
the empty course and excluded by hypothesis in every theorem below. -/
def offsetCourse (o : ℚ) : List Pt → List Pt
  | a :: b :: rest =>
    ((a.1.1 + o * (startOffsetVec a.1 b).1,
      a.1.2 + o * (startOffsetVec a.1 b).2), a.2) :: courseMid o a b rest
  | _ => []

/-- The three courses `bus_router` draws for `bus_size = 3` (both
`EZRouterShield.bus_router` and `EZRouterExtension.bus_router`): the size is
odd, so the center route is drawn on the primary manhattanized list itself
and `num_iters = bus_size - 1 = 2`; iteration `j = 0` has `sign = 1` and
parent `top = (manh, self, start_pt)` (the primary), giving the course at
`+spacing`; iteration `j = 1` has `sign = -1` and parent `bottom` (still the
primary), giving the course at `-spacing`; the odd branch always uses the
full spacing. -/
def busCourses3 (manh : List Pt) (s : ℚ) : List (List Pt) :=
  [manh, offsetCourse s manh, offsetCourse (-s) manh]

/-- The opposite cardinal direction. -/
def revDir : Dir → Dir
  | .px => .mx
  | .mx => .px
  | .py => .my
  | .my => .py

/-- The sign of the perpendicular coordinate that every entry of row `d` of
`shield_dict` carries: rows '+x' and '-y' put the derived path on the
positive perpendicular side, rows '-x' and '+y' on the negative side. -/
def sideSign : Dir → ℚ
  | .px => 1
  | .mx => -1
  | .py => -1
  | .my => 1

/-- The component of an offset vector perpendicular to a travel
direction. -/
def perpComp (d : Dir) (v : ℚ × ℚ) : ℚ :=
  match dirAxis d with
  | .x => v.2
  | .y => v.1

/-- A direction sequence with no reversal: no segment direction is the
opposite of its predecessor (no U-turn in the primary course). -/
def noReversal (ds : List Dir) : Prop := ∀ t ∈ pairs ds, t.2 ≠ revDir t.1

instance instDecNoReversal (ds : List Dir) : Decidable (noReversal ds) :=
  inferInstanceAs (Decidable (∀ t ∈ pairs ds, t.2 ≠ revDir t.1))

/-- Course `course` runs parallel to the primary course `prim` at constant
signed perpendicular amount `c`: along every consecutive primary pair, both
corresponding course points sit at perpendicular offset `c * sideSign d` from
their primary points, where `d` is the pair's travel direction. -/
def busOffsetAt (prim course : List Pt) (c : ℚ) : Prop :=
  ∀ t ∈ pairs (prim.zip course),
    perpComp (dirBetween t.1.1 t.2.1)
        (t.1.2.1.1 - t.1.1.1.1, t.1.2.1.2 - t.1.1.1.2) =
      c * sideSign (dirBetween t.1.1 t.2.1) ∧
    perpComp (dirBetween t.1.1 t.2.1)
        (t.2.2.1.1 - t.2.1.1.1, t.2.2.1.2 - t.2.1.1.2) =
      c * sideSign (dirBetween t.1.1 t.2.1)

/-! ## The claim-C9 reading of the walk

Claim C9 (spec §4.2 step 4) says that after a single-axis move the preferred
axis is set to the axis that did *not* move. The following variant encodes
that reading; it differs from `manhWalk` only in the last line of the
single-axis branch. -/

/-- The walk as described by the specification sentence of claim C9: on a
single-axis move, set the preferred axis to the axis that did not move
(`'x'` when `dx == 0`, else `'y'`). Everything else matches `manhWalk`. -/
def manhWalkSpecC9 (d : Axis) (cur : Pt) (points : List Pt) : List Pt :=
  match points with
  | [] => []
  | next :: rest =>
    let dx := next.1.1 - cur.1.1
    let dy := next.1.2 - cur.1.2
    if dx ≠ 0 ∧ dy ≠ 0 then
      match d with
      | .x => ((cur.1.1 + dx, cur.1.2), cur.2) :: next :: manhWalkSpecC9 .y next rest
      | .y => ((cur.1.1, cur.1.2 + dy), cur.2) :: next :: manhWalkSpecC9 .x next rest
    else if dx = 0 ∧ dy = 0 ∧ next.2 = cur.2 then
      manhWalkSpecC9 d cur rest
    else
      next :: manhWalkSpecC9 (if dx = 0 then .x else .y) next rest

/-! ## Handle validation

`EZRouter.valid_handles` is written in the source as
`['cr', 'cl', 'cb', 'ct', 'll' 'ul', 'lr', 'ur']`; the two adjacent string
literals `'ll' 'ul'` are concatenated by the Python lexer, so the list has
seven elements and contains `'llul'` rather than `'ll'` and `'ul'`. -/

/-- The class attribute `EZRouter.valid_handles`, after Python's implicit
adjacent-string-literal concatenation. -/
def valid_handles : List String := ["cr", "cl", "cb", "ct", "llul", "lr", "ur"]

/-- The `current_handle` property setter: accept a value in `valid_handles`,
raise `ValueError` otherwise. -/
def setCurrentHandle (value : String) : Except PyErr String :=
  if value ∈ valid_handles then .ok value else .error .valueError

/-! ## Route state, drawing events, and the via planner

The route drawing methods of `EZRouter` mutate a current rectangle, handle,
direction and layer and commit rectangles and vias into the generator's
database. The embedding tracks the route state at the path level of spec
§4.1 (the position of the current handle, the travel direction and the
layer) and records each database commit as an event. Rectangle extents and
segment widths are geometry-collaborator state (spec §6) that none of the
claims below mention; width bookkeeping through `route_point_dict` never
changes which events are emitted and is elided. -/

/-- The in-progress route state: current handle position, current routing
direction, current layer. -/
structure RState where
  pos : ℚ × ℚ
  dir : Dir
  layer : String
  deriving DecidableEq, Repr

/-- One geometry commit performed by the router:
`straight target layer` is the stretched rectangle of
`draw_straight_route`; `rectNew layer` is a rectangle added by
`draw_via` (the landing rectangle on the requested layer, or the copy used
by the non-primitive branch); `viaEmit id` is the primitive via committed by
`add_prim_via`; `viaStackEmit l1 l2` is the via stack committed by
`connect_wires`; `turn d` is the `self.current_dir = direction`
update at the end of `draw_via`. -/
inductive REvent
  | straight (target : ℚ × ℚ) (layer : String)
  | rectNew (layer : String)
  | viaEmit (viaId : String)
  | viaStackEmit (l1 l2 : String)
  | turn (d : Dir)
  deriving DecidableEq, Repr

/-- The configuration state the via planner consults:
`routerLayers`/`routerVias` are the keys of the router configuration
dictionary `tech_info['metal_tech']['router']` (per-layer entries carrying
'width', per-via entries carrying 'size' and the asymmetric enclosures);
`viaTable` is the key set of the technology via dictionary read by
`Via.compute_via`; `layerstack` is the bottom-up layer order used by
`Rectangle.get_highest_layer`; `metals` maps a layer to its stack index and
optional 'connect_to' layer, as read by `ViaStack.find_metal_pairs`. -/
structure RouterCfg where
  routerLayers : List String
  routerVias : List String
  viaTable : List String
  layerstack : List String
  metals : List (String × ℤ × Option String)

/-- `Rectangle.get_highest_layer` (src/Rectangle.py): compare the indices of
the two layers in the layer stack and return the higher one; a layer absent
from the stack loses, and two absent layers raise `ValueError`. -/
def get_highest_layer (stack : List String) (la lb : String) : Except PyErr String :=
  if la ∉ stack ∧ lb ∉ stack then .error .valueError
  else if la ∉ stack then .ok lb
  else if lb ∉ stack then .ok la
  else if stack.indexOf la < stack.indexOf lb then .ok lb
  else .ok la

/-- The chain walk inside `ViaStack.find_metal_pairs` (ACG/Via.py): from the
bottom layer, repeatedly follow `metals[layer]['connect_to']`, collecting
layer pairs, until the top layer is reached; a layer without a
'connect_to' entry raises
`ValueError('Could not complete via stack ...')`. The walk has no
termination bound in the source; a 'connect_to' cycle that misses the top
layer loops forever there, which the fuel value `none` result models. -/
def metalChain (metals : List (String × ℤ × Option String)) (top : String) :
    String → ℕ → Option (Except PyErr (List (String × String)))
  | _, 0 => none
  | bot, fuel + 1 =>
    match metals.lookup bot with
    | none => some (.error .keyError)
    | some (_, none) => some (.error .valueError)
    | some (_, some t) =>
      if t = top then some (.ok [(bot, t)])
      else
        match metalChain metals top t fuel with
        | none => none
        | some (.error e) => some (.error e)
        | some (.ok l) => some (.ok ((bot, t) :: l))

/-- `ViaStack.find_metal_pairs`: look up the stack indices of the two
rectangle layers (`KeyError` when absent), orient them bottom/top by index,
then walk the 'connect_to' chain from the bottom layer. -/
def find_metal_pairs (metals : List (String × ℤ × Option String))
    (l1 l2 : String) (fuel : ℕ) : Option (Except PyErr (List (String × String))) :=
  match metals.lookup l1, metals.lookup l2 with
  | none, _ => some (.error .keyError)
  | _, none => some (.error .keyError)
  | some (i1, _), some (i2, _) =>
    if i1 < i2 then metalChain metals l2 l1 fuel
    else metalChain metals l1 l2 fuel

/-- `EZRouter.draw_via` (ACG/AutoRouter.py lines 270-413), at event level.
Arguments mirror the keyword arguments whose values decide control flow:
`outWidthGiven`/`sizeGiven` say whether `out_width`/`size` were passed
(otherwise the router configuration is consulted), `encStyle` is the
`enc_style` string, `prim` the primitive-via flag. Steps, in source order:
create and align the landing rectangle on the requested layer; resolve
`out_width` from the configuration when not given; when `prim` and the layer
changes, pick the via id by stack orientation (the current rectangle's `lpp`
names its layer), build the primitive via — whose constructor immediately
reads `Via.vias[via_id]` and raises `KeyError` when the id is not
configured —, resolve the asymmetric enclosure defaults and the default
array size from the router configuration; when not `prim`, copy the landing
rectangle onto the current layer and let `connect_wires` build a via stack
when the layers differ; finally update the current direction. The returned
event list holds the commits performed before any raise. -/
def draw_via (cfg : RouterCfg) (st : RState) (layer : String) (direction : Dir)
    (encStyle : String) (outWidthGiven sizeGiven prim : Bool) (fuel : ℕ) :
    Option (List REvent × Except PyErr RState) :=
  let ev0 : List REvent := [.rectNew layer]
  if ¬ outWidthGiven ∧ layer ∉ cfg.routerLayers then some (ev0, .error .keyError)
  else if prim ∧ layer ≠ st.layer then
    match get_highest_layer cfg.layerstack st.layer layer with
    | .error e => some (ev0, .error e)
    | .ok h =>
      let via_id :=
        if h = st.layer then "V" ++ layer ++ "_" ++ st.layer
        else "V" ++ st.layer ++ "_" ++ layer
      if via_id ∉ cfg.viaTable then some (ev0, .error .keyError)
      else if encStyle = "asymm" ∧ via_id ∉ cfg.routerVias then
        some (ev0 ++ [.viaEmit via_id], .error .keyError)
      else if ¬ sizeGiven ∧ via_id ∉ cfg.routerVias then
        some (ev0 ++ [.viaEmit via_id], .error .keyError)
      else
        some (ev0 ++ [.viaEmit via_id, .turn direction], .ok ⟨st.pos, direction, layer⟩)
  else if prim then
    some (ev0 ++ [.turn direction], .ok ⟨st.pos, direction, layer⟩)
  else
    let ev1 := ev0 ++ [.rectNew st.layer]
    if layer ≠ st.layer then
      match find_metal_pairs cfg.metals layer st.layer fuel with
      | none => none
      | some (.error e) => some (ev1, .error e)
      | some (.ok _) =>
        some (ev1 ++ [.viaStackEmit layer st.layer, .turn direction],
          .ok ⟨st.pos, direction, layer⟩)
    else
      some (ev1 ++ [.turn direction], .ok ⟨st.pos, direction, layer⟩)

/-- `EZRouter.draw_straight_route`: a new rectangle on the current layer is
aligned to the route end and stretched so that the current handle reaches
`target` along the current direction only; the perpendicular coordinate of
`target` is ignored. -/
def drawStraight (st : RState) (target : ℚ × ℚ) : List REvent × RState :=
  match dirAxis st.dir with
  | .x => ([.straight target st.layer], ⟨(target.1, st.pos.2), st.dir, st.layer⟩)
  | .y => ([.straight target st.layer], ⟨(st.pos.1, target.2), st.dir, st.layer⟩)

/-- The outgoing-direction choice of `EZRouter._draw_route_segment` (lines
736-762): when a next point exists, compare the position reached after the
straight segment with it (perpendicular axis first, ties broken toward the
positive current axis); with no next point, keep the current direction. -/
def segmentOutDir (st : RState) (pt1 : Option Pt) : Dir :=
  match pt1 with
  | some q =>
    match dirAxis st.dir with
    | .x =>
      if st.pos.2 < q.1.2 then .py
      else if st.pos.2 = q.1.2 ∧ st.pos.1 < q.1.1 then .px
      else if st.pos.2 = q.1.2 then .mx
      else .my
    | .y =>
      if st.pos.1 < q.1.1 then .px
      else if st.pos.1 = q.1.1 ∧ st.pos.2 < q.1.2 then .py
      else if st.pos.1 = q.1.1 then .my
      else .mx
  | none => st.dir

/-- `EZRouter._draw_route_segment`: draw the straight segment to `pt0`, then
call `draw_via` with `pt0`'s layer and the outgoing direction chosen from
the optional next point; `out_width` is resolved by the caller (so it counts
as given) while `size` is never passed, leaving the default size lookup to
run. -/
def _draw_route_segment (cfg : RouterCfg) (st : RState) (pt0 : Pt)
    (pt1 : Option Pt) (encStyle : String) (prim : Bool) (fuel : ℕ) :
    Option (List REvent × Except PyErr RState) :=
  let s1 := drawStraight st pt0.1
  let direction := segmentOutDir s1.2 pt1
  match draw_via cfg s1.2 pt0.2 direction encStyle true false prim fuel with
  | none => none
  | some (evs, res) => some (s1.1 ++ evs, res)

/-- The segment loop of `EZRouter.cardinal_router` (lines 662-677) over the
point list with its leading point dropped: each consecutive pair is drawn by
`_draw_route_segment`, and after the loop the final point is drawn with no
next point and the hard-coded 'uniform' enclosure style. An empty list makes
the source raise `IndexError` at `final_point_list[-1]`. -/
def cardinalLoop (cfg : RouterCfg) (encStyle : String) (prim : Bool) (fuel : ℕ) :
    RState → List Pt → Option (List REvent × Except PyErr RState)
  | _, [] => some ([], .error .indexError)
  | st, [last] => _draw_route_segment cfg st last none "uniform" prim fuel
  | st, pt0 :: pt1 :: rest =>
    match _draw_route_segment cfg st pt0 (some pt1) encStyle prim fuel with
    | none => none
    | some (evs, .error e) => some (evs, .error e)
    | some (evs, .ok st1) =>
      match cardinalLoop cfg encStyle prim fuel st1 (pt1 :: rest) with
      | none => none
      | some (evs2, r) => some (evs ++ evs2, r)

/-- `EZRouter.cardinal_router`: manhattanize the waypoints from the current
position, drop the first manhattanized point (coincident with the start),
and drive the segment loop. -/
def cardinal_router (cfg : RouterCfg) (st : RState) (points : List Pt)
    (encStyle : String) (prim : Bool) (fuel : ℕ) :
    Option (List REvent × Except PyErr RState) :=
  cardinalLoop cfg encStyle prim fuel st
    ((manhattanize_point_list st.dir (st.pos, st.layer) points).drop 1)

/-! ## The grid wave router

`EZRouterExtension.bfs_router` (ACG/AutoRouterExtension.py) keeps, per
routing layer, a 2D list of cells holding `None`, `'O'`, `'S'`, `'E'`, an
integer distance label, or (in the separate `visited` copy) `'V'`; cell
`(i, j)` of a grid lives at `grid[j][i]`. -/

/-- A grid cell value: obstruction `'O'`, start `'S'`, end `'E'`, the
backtracking mark `'V'`, or an integer label; `Cell` adds Python's `None`
as `Option.none`. -/
inductive CellV
  | O
  | S
  | E
  | V
  | num (n : ℕ)
  deriving DecidableEq, Repr

/-- A cell as stored in the grids: `None` or a `CellV`. -/
abbrev Cell := Option CellV

/-- One layer's 2D cell array, outer index `j`, inner index `i`. -/
abbrev Grid := List (List Cell)

/-- A grid square address `(i, j, layer)`, as the tuples `bfs_router`
passes around. -/
abbrev GNode := ℕ × ℕ × String

/-- The per-layer grid store `self.grids`. -/
abbrev Grids := String → Grid

/-- Python truthiness of a cell: `None` and the integer `0` are falsy,
every string and nonzero integer is truthy. -/
def truthy : Cell → Bool
  | none => false
  | some (.num 0) => false
  | some _ => true

/-- Read `grid[j][i]`. All source accesses stay in bounds, so the
out-of-range default `none` is never consulted in the theorems below. -/
def gridCell (g : Grid) (i j : ℕ) : Cell := (g.getD j []).getD i none

/-- Read the cell a node addresses. -/
def cellAt (gs : Grids) (n : GNode) : Cell := gridCell (gs n.2.2) n.1 n.2.1

/-- Write `grid[j][i] = c`. -/
def gridSet (g : Grid) (i j : ℕ) (c : Cell) : Grid :=
  g.set j ((g.getD j []).set i c)

/-- Write the cell a node addresses. -/
def gridsSet (gs : Grids) (n : GNode) (c : Cell) : Grids :=
  fun l => if l = n.2.2 then gridSet (gs l) n.1 n.2.1 c else gs l

/-- The technology data `bfs_router` and its helpers consult: the full metal
stack order `tech_info['metal_tech']['routing']`, and per layer the
preferred direction string and the grid spacing from the router
configuration. -/
structure GridTech where
  routing : List String
  direction : String → String
  spacing : String → ℚ

/-- `EZRouterExtension.find_adjacent`: the corresponding grid square on an
adjacent layer, by rounding the coordinate scaled by the spacing ratio. -/
def find_adjacent (tech : GridTech) (layer1 layer2 : String) (i j : ℕ) : ℕ × ℕ :=
  ((pyRound ((i * tech.spacing layer1) / tech.spacing layer2)).toNat,
   (pyRound ((j * tech.spacing layer1) / tech.spacing layer2)).toNat)

/-- `EZRouterExtension.get_neighbors`: same-layer neighbors along the
layer's preferred direction (both axes for 'xy'), in the source's order
(+i, -i, +j, -j), then the corresponding squares on the stack-adjacent
routing layers that are within their own dimensions. `dims` is the
`self.dims` dictionary. A layer absent from the routing stack makes the
source raise `IndexError` at `[...][0]`; the claims only address layers on
the stack, and that case is modelled with no inter-layer neighbors. -/
def get_neighbors (tech : GridTech) (routingLayers : List String)
    (gs : Grids) (dims : String → ℕ × ℕ) (layer : String) (i j : ℕ) : List GNode :=
  let grid := gs layer
  let gridY := grid.length
  let gridX := (grid.getD 0 []).length
  let dirn := tech.direction layer
  let xs : List GNode :=
    if dirn = "x" ∨ dirn = "xy" then
      (if i + 1 < gridX then [(i + 1, j, layer)] else []) ++
        (if 1 ≤ i then [(i - 1, j, layer)] else [])
    else []
  let ys : List GNode :=
    if dirn = "y" ∨ dirn = "xy" then
      (if j + 1 < gridY then [(i, j + 1, layer)] else []) ++
        (if 1 ≤ j then [(i, j - 1, layer)] else [])
    else []
  let idx := tech.routing.indexOf layer
  let nls : List String :=
    (if idx + 1 < tech.routing.length then [tech.routing.getD (idx + 1) ""] else []) ++
      (if 1 ≤ idx ∧ idx < tech.routing.length then [tech.routing.getD (idx - 1) ""] else [])
  let lns : List GNode :=
    (nls.filter (fun l => l ∈ routingLayers)).filterMap fun l =>
      if l ≠ layer then
        let ij2 := find_adjacent tech layer l i j
        if ij2.1 < (dims l).1 ∧ ij2.2 < (dims l).2 then some (ij2.1, ij2.2, l)
        else none
      else none
  xs ++ ys ++ lns

/-- `EZRouterExtension.label_node`: breadth-first labeling with a FIFO
queue of `((i, j, layer), idx)` items. Popping the end cell `'E'` stops the
whole search; an obstructed or truthy non-start cell is skipped; a falsy
cell is labeled with the item index; then (also from the start cell `'S'`)
every neighbor whose cell is falsy or `'E'` is pushed with index one
larger. The queue is processed with explicit fuel; the search provably
stops on every input, so every theorem below either holds for all fuel
values or evaluates a concrete run with enough fuel. -/
def label_node (tech : GridTech) (routingLayers : List String)
    (dims : String → ℕ × ℕ) (gs : Grids) (queue : List (GNode × ℕ)) :
    ℕ → Grids
  | 0 => gs
  | fuel + 1 =>
    match queue with
    | [] => gs
    | item :: h =>
      let n := item.1
      let elem := cellAt gs n
      if elem = some .E then gs
      else if elem = some .O ∨ (truthy elem ∧ elem ≠ some .S) then
        label_node tech routingLayers dims gs h fuel
      else
        let gs1 := if ¬ truthy elem then gridsSet gs n (some (.num item.2)) else gs
        let ns := get_neighbors tech routingLayers gs1 dims n.2.2 n.1 n.2.1
        let pushes := (ns.filter fun nb =>
          ¬ truthy (cellAt gs1 nb) ∨ cellAt gs1 nb = some .E).map fun nb => (nb, item.2 + 1)
        label_node tech routingLayers dims gs1 (h ++ pushes) fuel

/-- Python's `min(l, key=f)`: the first element attaining the minimal key;
`none` on an empty list (where Python raises `ValueError`). -/
def pyMinBy {α : Type} (f : α → ℕ) : List α → Option α
  | [] => none
  | a :: l => some (l.foldl (fun b c => if f c < f b then c else b) a)

/-- The integer label of a cell, if it holds one. -/
def intLabel : Cell → Option ℕ
  | some (.num n) => some n
  | _ => none

/-- The backtracking loop of `bfs_router` (lines 610-621): while the
current cell's value differs from `1`, filter the neighbors down to those
with integer labels not yet marked `'V'` in the `visited` copy, step to the
one with the minimal label (`ValueError` from `min` when none is left),
mark it visited and append it to the path. -/
def backtrack (tech : GridTech) (routingLayers : List String)
    (dims : String → ℕ × ℕ) (gs : Grids) :
    Grids → GNode → List GNode → ℕ → Option (Except PyErr (List GNode))
  | _, _, _, 0 => none
  | visited, curr, path, fuel + 1 =>
    if cellAt gs curr = some (.num 1) then some (.ok path)
    else
      let ns := (get_neighbors tech routingLayers gs dims curr.2.2 curr.1 curr.2.1).filter
        fun nb => (intLabel (cellAt gs nb)).isSome ∧ cellAt visited nb ≠ some .V
      match pyMinBy (fun nb => (intLabel (cellAt gs nb)).getD 0) ns with
      | none => some (.error .valueError)
      | some nxt =>
        backtrack tech routingLayers dims gs
          (gridsSet visited nxt (some .V)) nxt (path ++ [nxt]) fuel

/-- The backtracking phase as `bfs_router` enters it: `visited` starts as a
deep copy of the labeled grids, the current node is the end node, and the
path starts as `[end]`. -/
def bfs_backtrack (tech : GridTech) (routingLayers : List String)
    (dims : String → ℕ × ℕ) (gs : Grids) (endNode : GNode) (fuel : ℕ) :
    Option (Except PyErr (List GNode)) :=
  backtrack tech routingLayers dims gs gs endNode [endNode] fuel

/-! ## Concrete scenarios

Inputs used by the counterexample and witness theorems below. -/

/-- A single-layer technology: one routing layer `M1`, preferred direction
'xy', spacing 1. -/
def techM1 : GridTech := ⟨["M1"], fun _ => "xy", fun _ => 1⟩

/-- A 3-by-1 single-layer grid with start `'S'` at `(0, 0)` and end `'E'`
at `(2, 0)` — the state of `self.grids` right after `bfs_router` marks the
start and end cells with no obstruction between them. -/
def gridsLine : Grids := fun _ => [[some .S, none, some .E]]

/-- The dimensions of `gridsLine`. -/
def dimsLine : String → ℕ × ℕ := fun _ => (3, 1)

/-- The labeled `gridsLine` after wave propagation from the start cell. -/
def gridsLineL : Grids :=
  label_node techM1 ["M1"] dimsLine gridsLine [((0, 0, "M1"), 0)] 32

/-- A 3-by-3 single-layer grid whose middle column is fully obstructed —
the state `bfs_router` builds when one obstruction rectangle spans the
entire declared routing bounds between the start `(0, 0)` and the end
`(2, 0)`. -/
def gridsWall : Grids :=
  fun _ => [[some .S, some .O, some .E],
            [none, some .O, none],
            [none, some .O, none]]

/-- The dimensions of `gridsWall`. -/
def dimsWall : String → ℕ × ℕ := fun _ => (3, 3)

/-- The labeled `gridsWall` after wave propagation from the start cell:
the frontier exhausts without reaching the end column. -/
def gridsWallL : Grids :=
  label_node techM1 ["M1"] dimsWall gridsWall [((0, 0, "M1"), 0)] 64

/-- A two-layer demonstration configuration for the via planner: router
entries and a technology via for the `M1`/`M2` pair only, a three-layer
stack, and a 'connect_to' chain that stops at `M2`. -/
def cfgDemo : RouterCfg :=
  ⟨["M1", "M2"], ["VM1_M2"], ["VM1_M2"], ["M1", "M2", "M3"],
    [("M1", (1, some "M2")), ("M2", (2, none))]⟩

/-- A primary manhattanized list with a U-turn: the second segment travels
'-x' straight back over the first segment's '+x' travel. -/
def manhU3 : List Pt := [((0, 0), "M1"), ((5, 0), "M1"), ((2, 0), "M1")]

/-- A primary manhattanized list with one left turn ('+x' then '+y') and all
coordinates on the 0.001 grid. -/
def manhL3 : List Pt := [((0, 0), "M1"), ((4, 0), "M1"), ((4, 3), "M1")]

/-! ## Proof-internal predicates for the collinear-sweep analysis -/

/-- The single-axis form of the deletion test: the three points agree on the
`ax` coordinate and on layer, with the middle perpendicular coordinate
(non-strictly) between its neighbors. `bad` is its disjunction over the two
axes. -/
def badAx (ax : Axis) (p0 p1 p2 : Pt) : Prop :=
  axc ax p0 = axc ax p1 ∧ axc ax p1 = axc ax p2 ∧
    ((perpc ax p0 ≤ perpc ax p1 ∧ perpc ax p1 ≤ perpc ax p2) ∨
      (perpc ax p2 ≤ perpc ax p1 ∧ perpc ax p1 ≤ perpc ax p0)) ∧
    p0.2 = p1.2 ∧ p1.2 = p2.2

/-- A deleted run summary: the three points agree on the `ax` coordinate and
on layer, and the perpendicular coordinate is strictly monotone through
them. -/
def RunF (ax : Axis) (p q r : Pt) : Prop :=
  axc ax p = axc ax q ∧ axc ax q = axc ax r ∧ p.2 = q.2 ∧ q.2 = r.2 ∧
    ((perpc ax p < perpc ax q ∧ perpc ax q < perpc ax r) ∨
      (perpc ax r < perpc ax q ∧ perpc ax q < perpc ax p))

/-- Relation between the last survivor `k` and the current sweep window
`(a, b)`: either `b`'s predecessor `a` survived (`k = a`), or everything
since `k` was deleted along a strictly monotone same-layer run whose axis
facts extend through `a` to `b`. -/
def Link (k a b : Pt) : Prop := k = a ∨ ∃ ax, RunF ax k a b

/-- Shape of a sweep output relative to its window `(a, b)`: it starts with
`b` itself, or with a later survivor reached from `b` by a strictly
monotone same-layer deleted run. -/
def HeadOut (a b : Pt) (out : List Pt) : Prop :=
  (∃ t, out = b :: t) ∨ (∃ ax h t, out = h :: t ∧ RunF ax a b h)

/-! # Theorems

Utility lemmas first, then for each claim its theorems, in claim order. -/

theorem pairs_cons₂ {α : Type} (a b : α) (l : List α) :
    pairs (a :: b :: l) = (a, b) :: pairs (b :: l) := rfl

theorem chainP_cons₂ {α : Type} (P : α → α → Prop) (a b : α) (l : List α) :
    chainP P (a :: b :: l) ↔ P a b ∧ chainP P (b :: l) := by
  simp [chainP, pairs_cons₂, List.forall_mem_cons]

theorem chainP_single {α : Type} (P : α → α → Prop) (a : α) : chainP P [a] := by
  simp [chainP, pairs]

theorem chainP_mono {α : Type} (P Q : α → α → Prop) (l : List α)
    (hpq : ∀ x y, P x y → Q x y) (h : chainP P l) : chainP Q l := by
  intro t ht
  exact hpq _ _ (h t ht)

theorem noBadTriple_cons₃ (a b c : Pt) (l : List Pt) :
    noBadTriple (a :: b :: c :: l) ↔ ¬ bad a b c ∧ noBadTriple (b :: c :: l) := by
  simp [noBadTriple, triples, List.forall_mem_cons]

theorem noBadTriple_pair (a b : Pt) : noBadTriple [a, b] := by
  simp [noBadTriple, triples]

theorem bad_iff_badAx (p0 p1 p2 : Pt) :
    bad p0 p1 p2 ↔ ∃ ax, badAx ax p0 p1 p2 := by
  constructor
  · rintro (⟨h1, h2, h3, h4⟩ | ⟨h1, h2, h3, h4⟩)
    · refine ⟨.x, h1, h2, ?_, h4⟩
      rcases h3 with h | h
      · exact Or.inl h
      · exact Or.inr ⟨h.2.le, h.1.le⟩
    · refine ⟨.y, h1, h2, ?_, h4⟩
      rcases h3 with h | h
      · exact Or.inl h
      · exact Or.inr ⟨h.2.le, h.1.le⟩
  · rintro ⟨ax, h⟩
    cases ax
    · refine Or.inl ⟨h.1, h.2.1, ?_, h.2.2.2⟩
      rcases h.2.2.1 with h3 | h3
      · exact Or.inl h3
      · exact Or.inr ⟨h3.2.ge, h3.1.ge⟩
    · refine Or.inr ⟨h.1, h.2.1, ?_, h.2.2.2⟩
      rcases h.2.2.1 with h3 | h3
      · exact Or.inl h3
      · exact Or.inr ⟨h3.2.ge, h3.1.ge⟩

theorem axOther_ne (ax ax₂ : Axis) (h : ax₂ ≠ ax) : axOther ax₂ = ax := by
  cases ax <;> cases ax₂ <;> simp_all [axOther]

theorem coords_eq_of_axes (ax : Axis) (p q : Pt) (h1 : axc ax p = axc ax q)
    (h2 : perpc ax p = perpc ax q) : p.1 = q.1 := by
  cases ax <;>
    exact Prod.ext (by simp_all [axc, perpc, axOther]) (by simp_all [axc, perpc, axOther])

theorem strict_of_adj (ax : Axis) (p q : Pt) (hok : okPair p q) (hl : p.2 = q.2)
    (hax : axc ax p = axc ax q) : perpc ax p ≠ perpc ax q := by
  intro hperp
  exact hok.2 (coords_eq_of_axes ax p q hax hperp) hl

theorem manhWalk_nil (d : Axis) (cur : Pt) : manhWalk d cur [] = [] := rfl

theorem manhWalk_diag_x (cur next : Pt) (rest : List Pt)
    (hx : next.1.1 - cur.1.1 ≠ 0) (hy : next.1.2 - cur.1.2 ≠ 0) :
    manhWalk .x cur (next :: rest) =
      ((cur.1.1 + (next.1.1 - cur.1.1), cur.1.2), cur.2) :: next :: manhWalk .y next rest := by
  simp only [manhWalk]
  rw [if_pos ⟨hx, hy⟩]

theorem manhWalk_diag_y (cur next : Pt) (rest : List Pt)
    (hx : next.1.1 - cur.1.1 ≠ 0) (hy : next.1.2 - cur.1.2 ≠ 0) :
    manhWalk .y cur (next :: rest) =
      ((cur.1.1, cur.1.2 + (next.1.2 - cur.1.2)), cur.2) :: next :: manhWalk .x next rest := by
  simp only [manhWalk]
  rw [if_pos ⟨hx, hy⟩]

theorem manhWalk_skip (d : Axis) (cur next : Pt) (rest : List Pt)
    (h : next.1.1 - cur.1.1 = 0 ∧ next.1.2 - cur.1.2 = 0 ∧ next.2 = cur.2) :
    manhWalk d cur (next :: rest) = manhWalk d cur rest := by
  simp only [manhWalk]
  rw [if_neg (by intro hc; exact hc.1 h.1), if_pos h]

theorem manhWalk_single (d : Axis) (cur next : Pt) (rest : List Pt)
    (hd : ¬ (next.1.1 - cur.1.1 ≠ 0 ∧ next.1.2 - cur.1.2 ≠ 0))
    (hsk : ¬ (next.1.1 - cur.1.1 = 0 ∧ next.1.2 - cur.1.2 = 0 ∧ next.2 = cur.2)) :
    manhWalk d cur (next :: rest) =
      next :: manhWalk (if next.1.1 - cur.1.1 = 0 then .y else .x) next rest := by
  simp only [manhWalk]
  rw [if_neg hd, if_neg hsk]

theorem manhWalk_chain : ∀ (pts : List Pt) (d : Axis) (cur : Pt),
    chainP okPair (cur :: manhWalk d cur pts) := by
  intro pts
  induction pts with
  | nil => intro d cur; rw [manhWalk_nil]; exact chainP_single _ _
  | cons next rest ih =>
    intro d cur
    by_cases hd : next.1.1 - cur.1.1 ≠ 0 ∧ next.1.2 - cur.1.2 ≠ 0
    · cases d
      · rw [manhWalk_diag_x cur next rest hd.1 hd.2, chainP_cons₂, chainP_cons₂]
        refine ⟨⟨Or.inr rfl, ?_⟩, ⟨Or.inl (by ring), ?_⟩, ih .y next⟩
        · intro hpos
          exfalso
          have h1 : cur.1.1 = cur.1.1 + (next.1.1 - cur.1.1) := congrArg Prod.fst hpos
          exact hd.1 (by linarith)
        · intro hpos
          exfalso
          have h1 := congrArg Prod.snd hpos
          dsimp at h1
          exact hd.2 (by linarith)
      · rw [manhWalk_diag_y cur next rest hd.1 hd.2, chainP_cons₂, chainP_cons₂]
        refine ⟨⟨Or.inl rfl, ?_⟩, ⟨Or.inr (by ring), ?_⟩, ih .x next⟩
        · intro hpos
          exfalso
          have h1 : cur.1.2 = cur.1.2 + (next.1.2 - cur.1.2) := congrArg Prod.snd hpos
          exact hd.2 (by linarith)
        · intro hpos
          exfalso
          have h1 := congrArg Prod.fst hpos
          dsimp at h1
          exact hd.1 (by linarith)
    · by_cases hsk : next.1.1 - cur.1.1 = 0 ∧ next.1.2 - cur.1.2 = 0 ∧ next.2 = cur.2
      · rw [manhWalk_skip d cur next rest hsk]
        exact ih d cur
      · rw [manhWalk_single d cur next rest hd hsk, chainP_cons₂]
        refine ⟨⟨?_, ?_⟩, ih _ next⟩
        · by_cases hx : next.1.1 - cur.1.1 = 0
          · exact Or.inl (by linarith)
          · have hy : next.1.2 - cur.1.2 = 0 := by
              by_contra hy
              exact hd ⟨hx, hy⟩
            exact Or.inr (by linarith)
        · intro hpos hlay
          have hx : next.1.1 - cur.1.1 = 0 := by
            have := congrArg Prod.fst hpos
            simp at this
            linarith
          have hy : next.1.2 - cur.1.2 = 0 := by
            have := congrArg Prod.snd hpos
            simp at this
            linarith
          exact hsk ⟨hx, hy, hlay.symm⟩

theorem manhWalk_eq_self : ∀ (pts : List Pt) (d : Axis) (cur : Pt),
    chainP exactlyOneAxis (cur :: pts) → manhWalk d cur pts = pts := by
  intro pts
  induction pts with
  | nil => intro d cur _; rfl
  | cons next rest ih =>
    intro d cur h
    rw [chainP_cons₂] at h
    obtain ⟨h1, h2⟩ := h
    rcases h1 with ⟨hx, hy⟩ | ⟨hx, hy⟩
    · rw [manhWalk_single d cur next rest (by rintro ⟨c1, _⟩; exact c1 (by linarith))
        (by rintro ⟨_, c2, _⟩; exact hy (by linarith)), ih _ next h2]
    · rw [manhWalk_single d cur next rest (by rintro ⟨_, c2⟩; exact c2 (by linarith))
        (by rintro ⟨c1, _, _⟩; exact hx (by linarith)), ih _ next h2]

theorem sweepAux_eq_self : ∀ (l : List Pt) (a b : Pt),
    noBadTriple (a :: b :: l) → sweepAux a b l = b :: l := by
  intro l
  induction l with
  | nil => intro a b _; rfl
  | cons c rest ih =>
    intro a b h
    rw [noBadTriple_cons₃] at h
    show (if bad a b c then [] else [b]) ++ sweepAux b c rest = b :: c :: rest
    rw [if_neg h.1, ih b c h.2]
    rfl

theorem removeCollinear_eq_self (l : List Pt) (h : noBadTriple l) :
    removeCollinear l = l := by
  match l with
  | [] => rfl
  | [a] => rfl
  | a :: b :: rest =>
    show a :: sweepAux a b rest = a :: b :: rest
    rw [sweepAux_eq_self rest a b h]

/-- Claim C2: `manhattanize_point_list` is idempotent — for every input
waypoint list that is already axis-aligned (each consecutive pair of the
route, starting at the initial point, differs in exactly one axis) and
already collinear-reduced (no consecutive triple passes the deletion test),
the function returns the route unchanged: the initial point followed by the
input points. -/
theorem C2_normalizer_idempotent (d : Dir) (init : Pt) (pts : List Pt)
    (h1 : chainP exactlyOneAxis (init :: pts)) (h2 : noBadTriple (init :: pts)) :
    manhattanize_point_list d init pts = init :: pts := by
  unfold manhattanize_point_list
  rw [manhWalk_eq_self pts _ init h1, removeCollinear_eq_self _ h2]

/-- Witness for C2, on the spec's own example: initial direction '+x',
initial point (0, 0), targets [(3, 0), (3, 4)] come back unchanged. -/
theorem C2_normalizer_idempotent_witness :
    chainP exactlyOneAxis [((0, 0), "M1"), ((3, 0), "M1"), ((3, 4), "M1")] ∧
    noBadTriple [((0, 0), "M1"), ((3, 0), "M1"), ((3, 4), "M1")] ∧
    manhattanize_point_list .px ((0, 0), "M1") [((3, 0), "M1"), ((3, 4), "M1")] =
      [((0, 0), "M1"), ((3, 0), "M1"), ((3, 4), "M1")] :=
  ⟨by decide, by decide,
    C2_normalizer_idempotent .px ((0, 0), "M1") [((3, 0), "M1"), ((3, 4), "M1")]
      (by decide) (by decide)⟩

/-- Claim C10: the `current_handle` setter accepts exactly the seven strings
'cr', 'cl', 'cb', 'ct', 'llul', 'lr', 'ur' — every other string, in
particular the two corner names 'll' and 'ul', makes it raise `ValueError`,
because the source writes the adjacent literals `'ll' 'ul'`, which Python
concatenates into the single entry `'llul'`. -/
theorem C10_handle_setter : ∀ v : String,
    (setCurrentHandle v = .ok v ↔
      (v = "cr" ∨ v = "cl" ∨ v = "cb" ∨ v = "ct" ∨ v = "llul" ∨ v = "lr" ∨ v = "ur")) ∧
    (setCurrentHandle v = .ok v ∨ setCurrentHandle v = .error .valueError) ∧
    setCurrentHandle "ll" = .error .valueError ∧
    setCurrentHandle "ul" = .error .valueError := by
  intro v
  refine ⟨?_, ?_, by decide, by decide⟩
  · unfold setCurrentHandle valid_handles
    by_cases h : v ∈ ["cr", "cl", "cb", "ct", "llul", "lr", "ur"]
    · rw [if_pos h]
      simp only [List.mem_cons, List.not_mem_nil, or_false] at h
      simpa using h
    · rw [if_neg h]
      simp only [List.mem_cons, List.not_mem_nil, or_false] at h
      constructor
      · intro hc
        exact absurd hc (by simp)
      · intro hc
        exact absurd hc h
  · unfold setCurrentHandle
    by_cases h : v ∈ valid_handles
    · rw [if_pos h]; exact Or.inl rfl
    · rw [if_neg h]; exact Or.inr rfl

/-- Counterexample for claim C4: the `shield_dict` entry for the turn from
'+x' to '+y' is (-1, 1), which is not a unit offset vector. -/
theorem C4_cex :
    shield_dict .px .py = (-1, 1) ∧
    shield_dict .px .py ∉ ([(1, 0), (-1, 0), (0, 1), (0, -1)] : List (ℚ × ℚ)) := by
  decide

/-- Claim C4 as amended: every `shield_dict` entry has both components in
-1, 0, 1, and the entry is a unit offset vector exactly when the two
directions share an axis (straight continuations and U-turns); at a corner
turn the entry is diagonal, with both components nonzero. -/
theorem C4_shield_dict_entries : ∀ d1 d2 : Dir,
    (shield_dict d1 d2).1 ∈ ([-1, 0, 1] : List ℚ) ∧
    (shield_dict d1 d2).2 ∈ ([-1, 0, 1] : List ℚ) ∧
    ((shield_dict d1 d2 ∈ ([(1, 0), (-1, 0), (0, 1), (0, -1)] : List (ℚ × ℚ))) ↔
      dirAxis d1 = dirAxis d2) ∧
    ((shield_dict d1 d2).1 ≠ 0 ∧ (shield_dict d1 d2).2 ≠ 0 ↔ dirAxis d1 ≠ dirAxis d2) := by
  decide

/-- Counterexample for claim C9: on initial direction '+x' from (0, 0) with
targets [(0, 2), (3, 5)], the walk of the source appends (0, 2) and sets the
preferred axis to the axis that moved (y), so the forced diagonal is split
y-first and the collinear sweep then merges the run, giving
[(0,0), (0,5), (3,5)]; a walk that set the preferred axis to the axis that
did not move — the claim's words — would split the diagonal x-first and
give [(0,0), (0,2), (3,2), (3,5)]. -/
theorem C9_cex :
    manhattanize_point_list .px ((0, 0), "M1") [((0, 2), "M1"), ((3, 5), "M1")] =
      [((0, 0), "M1"), ((0, 5), "M1"), ((3, 5), "M1")] ∧
    removeCollinear (((0, 0), "M1") ::
        manhWalkSpecC9 .x ((0, 0), "M1") [((0, 2), "M1"), ((3, 5), "M1")]) =
      [((0, 0), "M1"), ((0, 2), "M1"), ((3, 2), "M1"), ((3, 5), "M1")] ∧
    manhattanize_point_list .px ((0, 0), "M1") [((0, 2), "M1"), ((3, 5), "M1")] ≠
      removeCollinear (((0, 0), "M1") ::
        manhWalkSpecC9 .x ((0, 0), "M1") [((0, 2), "M1"), ((3, 5), "M1")]) := by
  refine ⟨?_, ?_, ?_⟩ <;>
    norm_num [manhattanize_point_list, manhWalk, manhWalkSpecC9, removeCollinear,
      sweepAux, bad, badX, badY, dirAxis]

/-- Claim C9 as amended: whenever the next waypoint differs from the current
point along exactly one axis, the walk appends that point directly and sets
the preferred axis to the axis that *did* move (y when the x coordinates
agree, x otherwise), so further collinear travel continues along the moved
axis before any forced diagonal is split. -/
theorem C9_single_axis_step (d : Axis) (cur next : Pt) (rest : List Pt)
    (h : exactlyOneAxis cur next) :
    manhWalk d cur (next :: rest) =
      next :: manhWalk (if cur.1.1 = next.1.1 then Axis.y else Axis.x) next rest := by
  rcases h with ⟨hx, hy⟩ | ⟨hx, hy⟩
  · rw [manhWalk_single d cur next rest (by rintro ⟨c1, _⟩; exact c1 (by linarith))
      (by rintro ⟨_, c2, _⟩; exact hy (by linarith))]
    rw [if_pos (by linarith), if_pos hx]
  · rw [manhWalk_single d cur next rest (by rintro ⟨_, c2⟩; exact c2 (by linarith))
      (by rintro ⟨c1, _, _⟩; exact hx (by linarith))]
    rw [if_neg (by intro hc; exact hx (by linarith)), if_neg hx]

/-- Witness for the amended C9, at the counterexample's first step: (0, 2)
moves only in y from (0, 0), is appended directly, and the walk continues
with preferred axis y. -/
theorem C9_single_axis_step_witness :
    exactlyOneAxis ((0, 0), "M1") ((0, 2), "M1") ∧
    manhWalk .x ((0, 0), "M1") [((0, 2), "M1"), ((3, 5), "M1")] =
      ((0, 2), "M1") :: manhWalk .y ((0, 2), "M1") [((3, 5), "M1")] :=
  ⟨by decide,
    C9_single_axis_step .x ((0, 0), "M1") ((0, 2), "M1") [((3, 5), "M1")] (by decide)⟩

/-- Counterexample for claim C1: with initial point ((0, 0), M1) and the
single waypoint ((0, 0), M2) — a pure layer change — the normalizer returns
two consecutive points that differ in no axis at all, so not every
consecutive pair differs in exactly one axis. -/
theorem C1_cex :
    manhattanize_point_list .px ((0, 0), "M1") [((0, 0), "M2")] =
      [((0, 0), "M1"), ((0, 0), "M2")] ∧
    ¬ chainP exactlyOneAxis
      (manhattanize_point_list .px ((0, 0), "M1") [((0, 0), "M2")]) := by
  constructor <;>
    norm_num [manhattanize_point_list, manhWalk, removeCollinear, sweepAux,
      bad, badX, badY, dirAxis, chainP, pairs, exactlyOneAxis]
  decide

theorem runf_axc_outer (ax : Axis) (p q r : Pt) (hr : RunF ax p q r) :
    axc ax p = axc ax r := hr.1.trans hr.2.1

theorem runf_lay_outer (ax : Axis) (p q r : Pt) (hr : RunF ax p q r) :
    p.2 = r.2 := hr.2.2.1.trans hr.2.2.2.1

theorem runf_perp_ne_outer (ax : Axis) (p q r : Pt) (hr : RunF ax p q r) :
    perpc ax p ≠ perpc ax r := by
  rcases hr.2.2.2.2 with ⟨h1, h2⟩ | ⟨h1, h2⟩ <;> intro h <;> linarith

theorem runf_perp_ne_right (ax : Axis) (p q r : Pt) (hr : RunF ax p q r) :
    perpc ax q ≠ perpc ax r := by
  rcases hr.2.2.2.2 with ⟨h1, h2⟩ | ⟨h1, h2⟩ <;> intro h <;> linarith

theorem pos_eq_coords (ax : Axis) (p q : Pt) (h : p.1 = q.1) :
    axc ax p = axc ax q ∧ perpc ax p = perpc ax q := by
  cases ax <;> rw [Prod.ext_iff] at h <;>
    exact ⟨by simp [axc, h.1, h.2], by simp [perpc, axOther, axc, h.1, h.2]⟩

theorem okPair_of_runf (ax : Axis) (p q r : Pt) (hr : RunF ax p q r) : okPair p r := by
  constructor
  · have h := runf_axc_outer ax p q r hr
    cases ax
    · exact Or.inl h
    · exact Or.inr h
  · intro hpos _
    exact absurd (pos_eq_coords ax p r hpos).2 (runf_perp_ne_outer ax p q r hr)

theorem axis_eq_of_perp_ne (ax1 ax2 : Axis) (p q : Pt)
    (hne : perpc ax1 p ≠ perpc ax1 q) (heq : axc ax2 p = axc ax2 q) : ax2 = ax1 := by
  by_contra h
  have ho : axOther ax1 = ax2 := axOther_ne ax2 ax1 (fun hh => h hh.symm)
  apply hne
  rw [perpc, perpc, ho]
  exact heq

theorem badAx_strict (ax : Axis) (a b c : Pt) (hb : badAx ax a b c)
    (okab : okPair a b) (okbc : okPair b c) :
    (perpc ax a < perpc ax b ∧ perpc ax b < perpc ax c) ∨
      (perpc ax c < perpc ax b ∧ perpc ax b < perpc ax a) := by
  have nab : perpc ax a ≠ perpc ax b := strict_of_adj ax a b okab hb.2.2.2.1 hb.1
  have nbc : perpc ax b ≠ perpc ax c := strict_of_adj ax b c okbc hb.2.2.2.2 hb.2.1
  rcases hb.2.2.1 with ⟨h1, h2⟩ | ⟨h1, h2⟩
  · exact Or.inl ⟨lt_of_le_of_ne h1 nab, lt_of_le_of_ne h2 nbc⟩
  · exact Or.inr ⟨lt_of_le_of_ne h1 nbc.symm, lt_of_le_of_ne h2 nab.symm⟩

theorem runf_of_badAx (ax : Axis) (a b c : Pt) (hb : badAx ax a b c)
    (okab : okPair a b) (okbc : okPair b c) : RunF ax a b c :=
  ⟨hb.1, hb.2.1, hb.2.2.2.1, hb.2.2.2.2, badAx_strict ax a b c hb okab okbc⟩

theorem runf_extend (ax : Axis) (k a b c : Pt) (hr : RunF ax k a b)
    (hb : badAx ax a b c) (okbc : okPair b c) : RunF ax k b c := by
  have nbc : perpc ax b ≠ perpc ax c := strict_of_adj ax b c okbc hb.2.2.2.2 hb.2.1
  refine ⟨runf_axc_outer ax k a b hr, hb.2.1, runf_lay_outer ax k a b hr, hb.2.2.2.2, ?_⟩
  rcases hr.2.2.2.2 with ⟨h1, h2⟩ | ⟨h1, h2⟩
  · rcases hb.2.2.1 with ⟨m1, m2⟩ | ⟨m1, m2⟩
    · exact Or.inl ⟨by linarith, lt_of_le_of_ne m2 nbc⟩
    · exact absurd m2 (by intro hm; linarith)
  · rcases hb.2.2.1 with ⟨m1, m2⟩ | ⟨m1, m2⟩
    · exact absurd m1 (by intro hm; linarith)
    · exact Or.inr ⟨lt_of_le_of_ne m1 nbc.symm, by linarith⟩

theorem runf_compose (ax : Axis) (a b c h : Pt) (h1 : RunF ax a b c)
    (h2 : RunF ax b c h) : RunF ax a b h := by
  refine ⟨h1.1, h2.1.trans h2.2.1, h1.2.2.1, h2.2.2.1.trans h2.2.2.2.1, ?_⟩
  rcases h1.2.2.2.2 with ⟨k1, k2⟩ | ⟨k1, k2⟩ <;>
    rcases h2.2.2.2.2 with ⟨m1, m2⟩ | ⟨m1, m2⟩
  · exact Or.inl ⟨k1, by linarith⟩
  · exact absurd m2 (by intro hm; linarith)
  · exact absurd m1 (by intro hm; linarith)
  · exact Or.inr ⟨by linarith, k2⟩

theorem noBad_head (k a b c s₀ : Pt)
    (hlink : Link k a b) (okab : okPair a b) (okbc : okPair b c)
    (htest : ¬ bad a b c)
    (hout : s₀ = c ∨ ∃ ax2, RunF ax2 b c s₀) :
    ¬ bad k b s₀ := by
  intro hbad
  obtain ⟨ax, hb⟩ := (bad_iff_badAx k b s₀).mp hbad
  apply htest
  apply (bad_iff_badAx a b c).mpr
  have hA : axc ax a = axc ax b ∧ a.2 = b.2 ∧
      ((perpc ax k ≤ perpc ax b → perpc ax a ≤ perpc ax b) ∧
        (perpc ax b ≤ perpc ax k → perpc ax b ≤ perpc ax a)) := by
    rcases hlink with rfl | ⟨ax1, hr⟩
    · exact ⟨hb.1, hb.2.2.2.1, fun h => h, fun h => h⟩
    · have hax : ax = ax1 :=
        axis_eq_of_perp_ne ax1 ax k b (runf_perp_ne_outer ax1 k a b hr) hb.1
      subst hax
      refine ⟨hr.2.1, hr.2.2.2.1, ?_, ?_⟩
      · intro hkb
        rcases hr.2.2.2.2 with ⟨h1, h2⟩ | ⟨h1, h2⟩ <;> linarith
      · intro hbk
        rcases hr.2.2.2.2 with ⟨h1, h2⟩ | ⟨h1, h2⟩ <;> linarith
  have hC : axc ax b = axc ax c ∧ b.2 = c.2 ∧
      ((perpc ax b ≤ perpc ax s₀ → perpc ax b ≤ perpc ax c) ∧
        (perpc ax s₀ ≤ perpc ax b → perpc ax c ≤ perpc ax b)) := by
    rcases hout with rfl | ⟨ax2, hr2⟩
    · exact ⟨hb.2.1, hb.2.2.2.2, fun h => h, fun h => h⟩
    · have hax : ax = ax2 :=
        axis_eq_of_perp_ne ax2 ax b s₀ (runf_perp_ne_outer ax2 b c s₀ hr2) hb.2.1
      subst hax
      refine ⟨hr2.1, hr2.2.2.1, ?_, ?_⟩
      · intro hbs
        rcases hr2.2.2.2.2 with ⟨h1, h2⟩ | ⟨h1, h2⟩ <;> linarith
      · intro hsb
        rcases hr2.2.2.2.2 with ⟨h1, h2⟩ | ⟨h1, h2⟩ <;> linarith
  refine ⟨ax, hA.1, hC.1, ?_, hA.2.1, hC.2.1⟩
  rcases hb.2.2.1 with ⟨h1, h2⟩ | ⟨h1, h2⟩
  · exact Or.inl ⟨hA.2.2.1 h1, hC.2.2.1 h2⟩
  · exact Or.inr ⟨hC.2.2.2 h1, hA.2.2.2 h2⟩

theorem sweepAux_main : ∀ (l : List Pt) (a b k : Pt),
    chainP okPair (a :: b :: l) → Link k a b →
    chainP okPair (k :: sweepAux a b l) ∧ noBadTriple (k :: sweepAux a b l) ∧
      HeadOut a b (sweepAux a b l) := by
  intro l
  induction l with
  | nil =>
    intro a b k hch hlink
    have okkb : okPair k b := by
      rcases hlink with rfl | ⟨ax, hr⟩
      · exact ((chainP_cons₂ _ _ _ _).mp hch).1
      · exact okPair_of_runf ax k a b hr
    refine ⟨?_, noBadTriple_pair k b, Or.inl ⟨[], rfl⟩⟩
    rw [show sweepAux a b [] = [b] from rfl, chainP_cons₂]
    exact ⟨okkb, chainP_single _ b⟩
  | cons c rest ih =>
    intro a b k hch hlink
    have hch1 : okPair a b := ((chainP_cons₂ _ _ _ _).mp hch).1
    have hchtail : chainP okPair (b :: c :: rest) := ((chainP_cons₂ _ _ _ _).mp hch).2
    have hchbc : okPair b c := ((chainP_cons₂ _ _ _ _).mp hchtail).1
    by_cases hbad : bad a b c
    · have hout_eq : sweepAux a b (c :: rest) = sweepAux b c rest := by
        show (if bad a b c then [] else [b]) ++ _ = _
        rw [if_pos hbad]
        exact List.nil_append _
      obtain ⟨ax, hb⟩ := (bad_iff_badAx a b c).mp hbad
      have hrabc : RunF ax a b c := runf_of_badAx ax a b c hb hch1 hchbc
      have hlink2 : Link k b c := by
        rcases hlink with rfl | ⟨ax1, hr⟩
        · exact Or.inr ⟨ax, hrabc⟩
        · have hax : ax = ax1 :=
            axis_eq_of_perp_ne ax1 ax a b (runf_perp_ne_right ax1 k a b hr) hb.1
          subst hax
          exact Or.inr ⟨ax, runf_extend ax k a b c hr hb hchbc⟩
      obtain ⟨ihc, ihn, ihh⟩ := ih b c k hchtail hlink2
      rw [hout_eq]
      refine ⟨ihc, ihn, ?_⟩
      rcases ihh with ⟨t, ht⟩ | ⟨ax2, hh, t, ht, hr2⟩
      · exact Or.inr ⟨ax, c, t, ht, hrabc⟩
      · have hax : ax2 = ax :=
          axis_eq_of_perp_ne ax ax2 b c (runf_perp_ne_right ax a b c hrabc) hr2.1
        subst hax
        exact Or.inr ⟨ax2, hh, t, ht, runf_compose ax2 a b c hh hrabc hr2⟩
    · have hout_eq : sweepAux a b (c :: rest) = b :: sweepAux b c rest := by
        show (if bad a b c then [] else [b]) ++ _ = _
        rw [if_neg hbad]
        rfl
      have okkb : okPair k b := by
        rcases hlink with rfl | ⟨ax, hr⟩
        · exact hch1
        · exact okPair_of_runf ax k a b hr
      obtain ⟨ihc, ihn, ihh⟩ := ih b c b hchtail (Or.inl rfl)
      rw [hout_eq]
      refine ⟨?_, ?_, Or.inl ⟨_, rfl⟩⟩
      · rw [chainP_cons₂]
        exact ⟨okkb, ihc⟩
      · rcases ihh with ⟨t, ht⟩ | ⟨ax2, s₁, t, ht, hr2⟩
        · rw [ht, noBadTriple_cons₃]
          refine ⟨noBad_head k a b c c hlink hch1 hchbc hbad (Or.inl rfl), ?_⟩
          rw [← ht]
          exact ihn
        · rw [ht, noBadTriple_cons₃]
          refine ⟨noBad_head k a b c s₁ hlink hch1 hchbc hbad (Or.inr ⟨ax2, hr2⟩), ?_⟩
          rw [← ht]
          exact ihn

theorem removeCollinear_props (l : List Pt) (h : chainP okPair l) :
    chainP okPair (removeCollinear l) ∧ noBadTriple (removeCollinear l) := by
  match l with
  | [] => exact ⟨by simp [removeCollinear, chainP, pairs], by simp [removeCollinear, noBadTriple, triples]⟩
  | [a] => exact ⟨by simp [removeCollinear, chainP, pairs], by simp [removeCollinear, noBadTriple, triples]⟩
  | a :: b :: rest =>
    have hm := sweepAux_main rest a b a h (Or.inl rfl)
    exact ⟨hm.1, hm.2.1⟩

/-- Claim C1 as amended: for every initial direction, initial point, and
list of target waypoints, the list returned by `manhattanize_point_list`
satisfies: every pair of consecutive points differs in *at most* one of the
x and y coordinates — a pair that moves in neither is possible, but only as
a layer change at one position —, and no interior point lies on the same
layer as both neighbors while being collinear with and monotonically
between them. -/
theorem C1_normalizer_output (d : Dir) (init : Pt) (pts : List Pt) :
    chainP okPair (manhattanize_point_list d init pts) ∧
    noBadTriple (manhattanize_point_list d init pts) := by
  have hw := manhWalk_chain pts (dirAxis d) init
  exact removeCollinear_props _ hw

/-- Counterexample for claim C3: routing from ((0,0), M1) heading '+x'
through the normalized waypoints [((1,0), M1), ((1,2), M2)], the final
`_draw_route_segment` call still runs the via/turn step on the last
waypoint: after the terminal straight segment the router commits a landing
rectangle on M2 and a primitive via `VM1_M2` at the final point (the
direction is merely re-asserted). The claim says no via and no turn step is
emitted there. -/
theorem C3_cex :
    cardinal_router cfgDemo ⟨(0, 0), .px, "M1"⟩ [((1, 0), "M1"), ((1, 2), "M2")]
        "uniform" true 8 =
      some ([.straight (1, 0) "M1", .rectNew "M1", .turn .py,
             .straight (1, 2) "M1", .rectNew "M2", .viaEmit "VM1_M2", .turn .py],
        .ok ⟨(1, 2), .py, "M2"⟩) := by
  have hm : manhattanize_point_list (Dir.px) ((0, 0), "M1") [((1, 0), "M1"), ((1, 2), "M2")] =
      [((0, 0), "M1"), ((1, 0), "M1"), ((1, 2), "M2")] := by
    norm_num [manhattanize_point_list, manhWalk, removeCollinear, sweepAux,
      bad, badX, badY, dirAxis]
  unfold cardinal_router
  rw [show (⟨(0, 0), .px, "M1"⟩ : RState).dir = Dir.px from rfl]
  rw [show ((⟨(0, 0), .px, "M1"⟩ : RState).pos, (⟨(0, 0), .px, "M1"⟩ : RState).layer) = (((0, 0) : ℚ × ℚ), "M1") from rfl]
  rw [hm]
  decide

/-- Claim C3 as amended: the via/turn step is *not* omitted on the last
waypoint. The cardinal router's final `_draw_route_segment` call (made with
no next point and primitive vias) draws the terminal straight segment and
then still invokes `draw_via` with the unchanged current direction: on
success the route direction is preserved, the route layer becomes the last
waypoint's layer, the event trail ends with the direction re-assertion, and
a via is committed at the last waypoint exactly when its layer differs from
the layer the route arrived on. -/
theorem C3_last_segment_no_turn (cfg : RouterCfg) (st : RState) (last : Pt)
    (fuel : ℕ) (evs : List REvent) (st2 : RState)
    (h : _draw_route_segment cfg st last none "uniform" true fuel = some (evs, .ok st2)) :
    st2.dir = st.dir ∧ st2.layer = last.2 ∧ (∃ evs0, evs = evs0 ++ [.turn st.dir]) ∧
    ((∃ vid, REvent.viaEmit vid ∈ evs) ↔ last.2 ≠ st.layer) := by
  have hst1 : (drawStraight st last.1).2.dir = st.dir ∧
      (drawStraight st last.1).2.layer = st.layer ∧
      (drawStraight st last.1).1 = [.straight last.1 st.layer] := by
    unfold drawStraight
    cases dirAxis st.dir <;> exact ⟨rfl, rfl, rfl⟩
  unfold _draw_route_segment at h
  dsimp only at h
  set st1 := (drawStraight st last.1).2 with hst1def
  have hdir1 : segmentOutDir st1 none = st1.dir := rfl
  rw [hdir1] at h
  unfold draw_via at h
  rw [if_neg (by simp)] at h
  by_cases hl : last.2 = st1.layer
  · rw [if_neg (by simp [hl]), if_pos rfl] at h
    rw [Option.some.injEq, Prod.mk.injEq] at h
    obtain ⟨hevs, hok⟩ := h
    have hok2 : (⟨st1.pos, st1.dir, last.2⟩ : RState) = st2 := Except.ok.inj hok
    refine ⟨?_, ?_, ?_, ?_⟩
    · rw [← hok2]; exact hst1.1
    · rw [← hok2]
    · refine ⟨(drawStraight st last.1).1 ++ [.rectNew last.2], ?_⟩
      rw [← hevs, hst1.1]
      simp
    · constructor
      · rintro ⟨vid, hvid⟩
        exfalso
        rw [← hevs, hst1.2.2] at hvid
        simp at hvid
      · intro hne
        exact absurd (hl.trans hst1.2.1) hne
  · rw [if_pos (by simp [hl])] at h
    rcases hglr : get_highest_layer cfg.layerstack st1.layer last.2 with e | hh
    · rw [hglr] at h
      simp at h
    · rw [hglr] at h
      dsimp only at h
      set vid := (if hh = st1.layer then "V" ++ last.2 ++ "_" ++ st1.layer
        else "V" ++ st1.layer ++ "_" ++ last.2) with hviddef
      by_cases hvt : vid ∈ cfg.viaTable
      · rw [if_neg (by simp [hvt])] at h
        rw [if_neg (by simp)] at h
        by_cases hrv : vid ∈ cfg.routerVias
        · rw [if_neg (by simp [hrv])] at h
          rw [Option.some.injEq, Prod.mk.injEq] at h
          obtain ⟨hevs, hok⟩ := h
          have hok2 : (⟨st1.pos, st1.dir, last.2⟩ : RState) = st2 := Except.ok.inj hok
          refine ⟨?_, ?_, ?_, ?_⟩
          · rw [← hok2]; exact hst1.1
          · rw [← hok2]
          · refine ⟨(drawStraight st last.1).1 ++ [.rectNew last.2, .viaEmit vid], ?_⟩
            rw [← hevs, hst1.1]
            simp
          · constructor
            · intro _
              rw [hst1.2.1] at hl
              exact hl
            · intro _
              refine ⟨vid, ?_⟩
              rw [← hevs]
              simp
        · rw [if_pos (by simp [hrv])] at h
          rw [Option.some.injEq, Prod.mk.injEq] at h
          exact absurd h.2 (by simp)
      · rw [if_pos hvt] at h
        rw [Option.some.injEq, Prod.mk.injEq] at h
        exact absurd h.2 (by simp)

/-- Witness for the amended C3, at the final segment of the C3
counterexample route: the last waypoint ((1,2), M2) is reached heading '+y'
on M1; the final step keeps direction '+y', switches the route layer to M2,
ends with the direction re-assertion, and commits a via because the layer
changed. -/
theorem C3_last_segment_no_turn_witness :
    _draw_route_segment cfgDemo ⟨(1, 2), .py, "M1"⟩ ((1, 2), "M2") none "uniform" true 8 =
      some ([.straight (1, 2) "M1", .rectNew "M2", .viaEmit "VM1_M2", .turn .py],
        .ok ⟨(1, 2), .py, "M2"⟩) ∧
    ((⟨(1, 2), .py, "M2"⟩ : RState).dir = (⟨(1, 2), .py, "M1"⟩ : RState).dir ∧
      (⟨(1, 2), .py, "M2"⟩ : RState).layer = (((1, 2) : ℚ × ℚ), "M2").2 ∧
      (∃ evs0, [REvent.straight (1, 2) "M1", .rectNew "M2", .viaEmit "VM1_M2", .turn .py] =
        evs0 ++ [.turn (⟨(1, 2), .py, "M1"⟩ : RState).dir]) ∧
      ((∃ vid, REvent.viaEmit vid ∈
          [REvent.straight (1, 2) "M1", .rectNew "M2", .viaEmit "VM1_M2", .turn .py]) ↔
        (((1, 2) : ℚ × ℚ), "M2").2 ≠ (⟨(1, 2), .py, "M1"⟩ : RState).layer)) :=
  ⟨by decide,
    C3_last_segment_no_turn cfgDemo ⟨(1, 2), .py, "M1"⟩ ((1, 2), "M2") 8 _ _ (by decide)⟩

theorem get_highest_layer_error (stack : List String) (la lb : String) (e : PyErr)
    (h : get_highest_layer stack la lb = .error e) : e = .valueError := by
  unfold get_highest_layer at h
  split_ifs at h
  simp_all

/-- Counterexample for claim C7: requesting a via from M2 to M3 in a
configuration whose via table only knows `VM1_M2`, `draw_via` raises
`KeyError` (the failed `Via.vias[via_id]` lookup inside the `Via`
constructor), not an `IncompleteViaStackError` — no such exception class
exists anywhere in the source. The landing rectangle on M3 has already been
committed, but no via has. -/
theorem C7_cex :
    draw_via cfgDemo ⟨(0, 0), .px, "M2"⟩ "M3" .px "uniform" true false true 8 =
      some ([.rectNew "M3"], .error .keyError) ∧
    (∀ vid, REvent.viaEmit vid ∉ [REvent.rectNew "M3"]) := by
  refine ⟨by decide, ?_⟩
  intro vid h
  simp at h

/-- Claim C7 as amended: a via request between two distinct layers with no
configured via connecting them fails eagerly, before any via geometry is
committed, but with Python's built-in exceptions rather than a dedicated
`IncompleteViaStackError`. With primitive vias the check is direct-only:
when neither orientation of the via id is in the technology via table,
`draw_via` stops with `KeyError` (or `ValueError` when both layers are
missing from the layer stack) right after creating the landing rectangle,
with no via event. The transitive check lives in the non-primitive
via-stack path: a layer without a 'connect_to' entry makes the
`find_metal_pairs` chain walk fail with
`ValueError('Could not complete via stack ...')`. -/
theorem C7_missing_via_fails :
    (∀ (cfg : RouterCfg) (st : RState) (layer : String) (direction : Dir)
        (encStyle : String) (sg : Bool) (fuel : ℕ),
      layer ≠ st.layer →
      "V" ++ layer ++ "_" ++ st.layer ∉ cfg.viaTable →
      "V" ++ st.layer ++ "_" ++ layer ∉ cfg.viaTable →
      ∃ e, draw_via cfg st layer direction encStyle true sg true fuel =
          some ([.rectNew layer], .error e) ∧ (e = PyErr.keyError ∨ e = PyErr.valueError)) ∧
    (∀ (metals : List (String × ℤ × Option String)) (bot top : String) (fuel : ℕ) (i : ℤ),
      metals.lookup bot = some (i, none) →
      metalChain metals top bot (fuel + 1) = some (.error .valueError)) := by
  constructor
  · intro cfg st layer direction encStyle sg fuel hdiff hm1 hm2
    unfold draw_via
    rw [if_neg (by simp), if_pos (by simp [hdiff])]
    rcases hg : get_highest_layer cfg.layerstack st.layer layer with e | hh
    · exact ⟨e, rfl, Or.inr (get_highest_layer_error _ _ _ e hg)⟩
    · refine ⟨.keyError, ?_, Or.inl rfl⟩
      dsimp only
      by_cases hcase : hh = st.layer
      · rw [if_pos hcase, if_pos hm1]
      · rw [if_neg hcase, if_pos hm2]
  · intro metals bot top fuel i hlook
    unfold metalChain
    rw [hlook]

/-- Witness for the amended C7: the concrete M2-to-M3 request
satisfies the hypotheses of the primitive-via part, and a one-layer metals
table with no 'connect_to' entry satisfies the chain-walk part. -/
theorem C7_missing_via_fails_witness :
    ("M3" ≠ "M2" ∧
      "V" ++ "M3" ++ "_" ++ "M2" ∉ cfgDemo.viaTable ∧
      "V" ++ "M2" ++ "_" ++ "M3" ∉ cfgDemo.viaTable ∧
      ∃ e, draw_via cfgDemo ⟨(0, 0), .px, "M2"⟩ "M3" .px "uniform" true false true 8 =
          some ([.rectNew "M3"], .error e) ∧ (e = PyErr.keyError ∨ e = PyErr.valueError)) ∧
    ([("M2", ((2 : ℤ), (none : Option String)))].lookup "M2" = some (2, none) ∧
      metalChain [("M2", ((2 : ℤ), (none : Option String)))] "M3" "M2" 8 =
        some (.error .valueError)) :=
  ⟨⟨by decide, by decide, by decide,
      C7_missing_via_fails.1 cfgDemo ⟨(0, 0), .px, "M2"⟩ "M3" .px "uniform" false 8
        (by decide) (by decide) (by decide)⟩,
    ⟨by decide, C7_missing_via_fails.2 [("M2", ((2 : ℤ), (none : Option String)))] "M2" "M3" 7 2 (by decide)⟩⟩

theorem gridCell_set_ne (g : Grid) (i j i' j' : ℕ) (c : Cell)
    (hne : ¬ (i = i' ∧ j = j')) :
    gridCell (gridSet g i j c) i' j' = gridCell g i' j' := by
  unfold gridCell gridSet
  by_cases hj : j = j'
  · subst hj
    have hi : i ≠ i' := fun h => hne ⟨h, rfl⟩
    by_cases hlen : j < g.length
    · simp [List.getD_eq_getElem?_getD, List.getElem?_set_self hlen, List.getElem?_set_ne hi]
    · rw [List.set_eq_of_length_le (Nat.le_of_not_lt hlen)]
  · simp [List.getD_eq_getElem?_getD, List.getElem?_set_ne hj]

theorem cellAt_gridsSet_ne (gs : Grids) (m n : GNode) (c : Cell) (hne : m ≠ n) :
    cellAt (gridsSet gs m c) n = cellAt gs n := by
  unfold cellAt gridsSet
  by_cases hl : n.2.2 = m.2.2
  · rw [if_pos hl]
    apply gridCell_set_ne
    rintro ⟨hi, hj⟩
    apply hne
    exact Prod.ext hi (Prod.ext hj hl.symm)
  · rw [if_neg hl]

theorem cellAt_gridsSet_self (gs : Grids) (m : GNode) (c : Cell) :
    cellAt (gridsSet gs m c) m = c ∨ cellAt (gridsSet gs m c) m = cellAt gs m := by
  unfold cellAt gridsSet
  rw [if_pos rfl]
  unfold gridCell gridSet
  simp only [List.getD_eq_getElem?_getD]
  by_cases hlen : m.2.1 < (gs m.2.2).length
  · rw [List.getElem?_set_self hlen]
    simp only [Option.getD_some]
    by_cases hrow : m.1 < (((gs m.2.2)[m.2.1]?).getD ([] : List Cell)).length
    · left
      rw [List.getElem?_set_self hrow]
      rfl
    · right
      rw [List.set_eq_of_length_le (Nat.le_of_not_lt hrow)]
  · right
    rw [List.set_eq_of_length_le (Nat.le_of_not_lt hlen)]

theorem cellAt_set_preserves_S (gs : Grids) (m : GNode) (c : Cell) (n : GNode)
    (hS : cellAt gs n = some .S) (hm : ¬ truthy (cellAt gs m) = true) :
    cellAt (gridsSet gs m c) n = some .S := by
  by_cases hmn : m = n
  · subst hmn
    rw [hS] at hm
    exact absurd rfl hm
  · rw [cellAt_gridsSet_ne gs m n c hmn]
    exact hS

theorem label_node_preserves_S : ∀ (fuel : ℕ) (tech : GridTech) (rl : List String)
    (dims : String → ℕ × ℕ) (gs : Grids) (queue : List (GNode × ℕ)) (n : GNode),
    cellAt gs n = some CellV.S →
    cellAt (label_node tech rl dims gs queue fuel) n = some CellV.S := by
  intro fuel
  induction fuel with
  | zero => intro tech rl dims gs queue n h; exact h
  | succ f ih =>
    intro tech rl dims gs queue n h
    match queue with
    | [] => exact h
    | item :: t =>
      simp only [label_node]
      by_cases h1 : cellAt gs item.1 = some CellV.E
      · rw [if_pos h1]; exact h
      · rw [if_neg h1]
        by_cases h2 : cellAt gs item.1 = some CellV.O ∨
            (truthy (cellAt gs item.1) = true ∧ cellAt gs item.1 ≠ some CellV.S)
        · rw [if_pos h2]; exact ih tech rl dims gs t n h
        · rw [if_neg h2]
          by_cases h3 : truthy (cellAt gs item.1) = true
          · rw [if_neg (by simp [h3])]
            exact ih tech rl dims gs _ n h
          · rw [if_pos (by simp [h3])]
            exact ih tech rl dims _ _ n (cellAt_set_preserves_S gs item.1 _ n h h3)

theorem label_node_no_zero : ∀ (fuel : ℕ) (tech : GridTech) (rl : List String)
    (dims : String → ℕ × ℕ) (gs : Grids) (queue : List (GNode × ℕ)),
    (∀ n, cellAt gs n ≠ some (CellV.num 0)) →
    (∀ q ∈ queue, q.2 = 0 → cellAt gs q.1 = some CellV.S) →
    ∀ n, cellAt (label_node tech rl dims gs queue fuel) n ≠ some (CellV.num 0) := by
  intro fuel
  induction fuel with
  | zero => intro tech rl dims gs queue hz hq n; exact hz n
  | succ f ih =>
    intro tech rl dims gs queue hz hq n
    match queue with
    | [] => exact hz n
    | item :: t =>
      simp only [label_node]
      by_cases h1 : cellAt gs item.1 = some CellV.E
      · rw [if_pos h1]; exact hz n
      · rw [if_neg h1]
        by_cases h2 : cellAt gs item.1 = some CellV.O ∨
            (truthy (cellAt gs item.1) = true ∧ cellAt gs item.1 ≠ some CellV.S)
        · rw [if_pos h2]
          exact ih tech rl dims gs t hz (fun q hqm => hq q (List.mem_cons_of_mem item hqm)) n
        · rw [if_neg h2]
          by_cases h3 : truthy (cellAt gs item.1) = true
          · rw [if_neg (by simp [h3])]
            apply ih tech rl dims gs _ hz
            intro q hqm hq0
            rcases List.mem_append.mp hqm with hqt | hqp
            · exact hq q (List.mem_cons_of_mem item hqt) hq0
            · exfalso
              obtain ⟨nb, _, hnb⟩ := List.mem_map.mp hqp
              rw [← hnb] at hq0
              exact Nat.succ_ne_zero item.2 hq0
          · rw [if_pos (by simp [h3])]
            have hiz : item.2 ≠ 0 := by
              intro h0
              apply h3
              rw [hq item (List.mem_cons_self item t) h0]
              rfl
            apply ih
            · intro m
              by_cases hmn : m = item.1
              · subst hmn
                rcases cellAt_gridsSet_self gs item.1 (some (.num item.2)) with hc | hc
                · rw [hc]
                  intro hcc
                  exact hiz (CellV.num.inj (Option.some.inj hcc))
                · rw [hc]
                  exact hz item.1
              · rw [cellAt_gridsSet_ne gs item.1 m _ (fun hh => hmn hh.symm)]
                exact hz m
            · intro q hqm hq0
              rcases List.mem_append.mp hqm with hqt | hqp
              · exact cellAt_set_preserves_S gs item.1 _ q.1
                  (hq q (List.mem_cons_of_mem item hqt) hq0) h3
              · exfalso
                obtain ⟨nb, _, hnb⟩ := List.mem_map.mp hqp
                rw [← hnb] at hq0
                exact Nat.succ_ne_zero item.2 hq0

theorem backtrack_stops_at_one : ∀ (fuel : ℕ) (tech : GridTech) (rl : List String)
    (dims : String → ℕ × ℕ) (gs visited : Grids) (curr : GNode)
    (path p : List GNode),
    path.getLast? = some curr →
    backtrack tech rl dims gs visited curr path fuel = some (.ok p) →
    ∃ lastc, p.getLast? = some lastc ∧ cellAt gs lastc = some (CellV.num 1) := by
  intro fuel
  induction fuel with
  | zero =>
    intro tech rl dims gs visited curr path p hlast h
    exact absurd h (by simp [backtrack])
  | succ f ih =>
    intro tech rl dims gs visited curr path p hlast h
    simp only [backtrack] at h
    by_cases h1 : cellAt gs curr = some (CellV.num 1)
    · rw [if_pos h1] at h
      simp only [Option.some.injEq, Except.ok.injEq] at h
      exact ⟨curr, h ▸ hlast, h1⟩
    · rw [if_neg h1] at h
      rcases hmin : pyMinBy (fun nb => (intLabel (cellAt gs nb)).getD 0)
          ((get_neighbors tech rl gs dims curr.2.2 curr.1 curr.2.1).filter
            fun nb => (intLabel (cellAt gs nb)).isSome ∧ cellAt visited nb ≠ some .V)
          with _ | nxt
      · rw [hmin] at h
        simp at h
      · rw [hmin] at h
        exact ih tech rl dims gs _ nxt (path ++ [nxt]) p (List.getLast?_concat _) h

theorem getD_cases {α : Type} (l : List α) (i : ℕ) (d : α) :
    l.getD i d = d ∨ l.getD i d ∈ l := by
  rw [List.getD_eq_getElem?_getD]
  rcases h : l[i]? with _ | a
  · left; rfl
  · right
    simp only [Option.getD_some]
    exact List.getElem?_mem h

theorem gridsLine_no_zero : ∀ n, cellAt gridsLine n ≠ some (CellV.num 0) := by
  rintro ⟨i, j, l⟩ h
  unfold cellAt gridsLine gridCell at h
  dsimp only at h
  rcases getD_cases ([[some CellV.S, none, some CellV.E]] : Grid) j [] with hr | hr
  · rw [hr] at h
    simp [List.getD] at h
  · rw [List.mem_singleton] at hr
    rw [hr] at h
    rcases getD_cases [some CellV.S, none, some CellV.E] i none with hc | hc
    · rw [hc] at h
      exact Option.noConfusion h
    · simp only [List.mem_cons, List.not_mem_nil, or_false] at hc
      rcases hc with hc | hc | hc <;> rw [hc] at h <;> simp at h

/-- Counterexample for claim C5: on a 3-by-1 single-layer grid with start
(0,0) and end (2,0), wave propagation labels only the middle cell (with 1 —
the start cell keeps the marker 'S' and no cell is ever labeled 0), and
backtracking from the end stops at that label-1 cell: the recovered path is
[(2,0), (1,0)], whose first cell after reversal is (1,0), not the start
cell (0,0). -/
theorem C5_cex :
    gridsLineL "M1" = [[some CellV.S, some (CellV.num 1), some CellV.E]] ∧
    bfs_backtrack techM1 ["M1"] dimsLine gridsLineL (2, 0, "M1") 32 =
      some (.ok [(2, 0, "M1"), (1, 0, "M1")]) ∧
    ([(2, 0, "M1"), (1, 0, "M1")] : List GNode).reverse.head? = some (1, 0, "M1") ∧
    ((1, 0, "M1") : GNode) ≠ (0, 0, "M1") ∧
    cellAt gridsLineL (0, 0, "M1") = some CellV.S ∧
    cellAt gridsLineL (1, 0, "M1") = some (CellV.num 1) := by
  decide

/-- Claim C5 as amended: backtracking starts at the end cell and repeatedly
moves to the unvisited integer-labeled neighbor with the smallest label, but
it terminates exactly when a cell labeled 1 — a neighbor of the start — is
reached, not a cell labeled 0: wave propagation never writes the label 0
anywhere (the start cell keeps its marker 'S' throughout), so the recovered
cell path stops next to the start; the start point itself is only prepended
later, as the initial point of the normalization pass. -/
theorem C5_backtrack_facts :
    (∀ (fuel : ℕ) (tech : GridTech) (rl : List String) (dims : String → ℕ × ℕ)
        (gs : Grids) (queue : List (GNode × ℕ)) (n : GNode),
      cellAt gs n = some CellV.S →
      cellAt (label_node tech rl dims gs queue fuel) n = some CellV.S) ∧
    (∀ (fuel : ℕ) (tech : GridTech) (rl : List String) (dims : String → ℕ × ℕ)
        (gs : Grids) (start : GNode),
      cellAt gs start = some CellV.S →
      (∀ n, cellAt gs n ≠ some (CellV.num 0)) →
      ∀ n, cellAt (label_node tech rl dims gs [(start, 0)] fuel) n ≠ some (CellV.num 0)) ∧
    (∀ (fuel : ℕ) (tech : GridTech) (rl : List String) (dims : String → ℕ × ℕ)
        (gs : Grids) (endNode : GNode) (p : List GNode),
      bfs_backtrack tech rl dims gs endNode fuel = some (.ok p) →
      ∃ lastc, p.getLast? = some lastc ∧ cellAt gs lastc = some (CellV.num 1)) := by
  refine ⟨label_node_preserves_S, ?_, ?_⟩
  · intro fuel tech rl dims gs start hS hz n
    apply label_node_no_zero fuel tech rl dims gs [(start, 0)] hz
    intro q hqm _
    rw [List.mem_singleton] at hqm
    rw [hqm]
    exact hS
  · intro fuel tech rl dims gs endNode p h
    exact backtrack_stops_at_one fuel tech rl dims gs gs endNode [endNode] p rfl h

/-- Witness for the amended C5, on the 3-by-1 line scenario: the start cell
still holds 'S' after labeling, no cell holds the label 0, and the returned
path ends at the cell labeled 1. -/
theorem C5_backtrack_facts_witness :
    cellAt (label_node techM1 ["M1"] dimsLine gridsLine [((0, 0, "M1"), 0)] 32)
      (0, 0, "M1") = some CellV.S ∧
    (∀ n, cellAt (label_node techM1 ["M1"] dimsLine gridsLine [((0, 0, "M1"), 0)] 32) n ≠
      some (CellV.num 0)) ∧
    (∃ lastc, ([(2, 0, "M1"), (1, 0, "M1")] : List GNode).getLast? = some lastc ∧
      cellAt gridsLineL lastc = some (CellV.num 1)) :=
  ⟨C5_backtrack_facts.1 32 techM1 ["M1"] dimsLine gridsLine [((0, 0, "M1"), 0)]
      (0, 0, "M1") (by decide),
    C5_backtrack_facts.2.1 32 techM1 ["M1"] dimsLine gridsLine (0, 0, "M1")
      (by decide) gridsLine_no_zero,
    C5_backtrack_facts.2.2 32 techM1 ["M1"] dimsLine gridsLineL (2, 0, "M1")
      [(2, 0, "M1"), (1, 0, "M1")] (by decide)⟩

/-- Counterexample for claim C6: on the 3-by-3 grid whose middle column is
one obstruction spanning the entire declared routing bounds, the wave from
the start exhausts without labeling the end column — the end cell still
holds 'E' and carries no integer label — and `bfs_router` then fails with a
plain `ValueError` raised by `min` over an empty neighbor list, not with an
`UnreachableTargetError` (no such class exists anywhere in the repository). -/
theorem C6_cex :
    cellAt gridsWallL (2, 0, "M1") = some CellV.E ∧
    intLabel (cellAt gridsWallL (2, 0, "M1")) = none ∧
    bfs_backtrack techM1 ["M1"] dimsWall gridsWallL (2, 0, "M1") 64 =
      some (.error PyErr.valueError) := by
  decide

/-- Claim C6 as amended: when backtracking starts at an end cell that is not
labeled `1` and whose neighbor list filters down to nothing — no neighbor
carries an integer distance label, as happens when the wave exhausted
without reaching the end — the router fails with Python's built-in
`ValueError` (from `min` applied to an empty sequence), producing no path at
all, partial or otherwise. The spec's `UnreachableTargetError` is never
raised: that exception class does not exist in the repository. -/
theorem C6_unreachable_error (tech : GridTech) (rl : List String)
    (dims : String → ℕ × ℕ) (gs : Grids) (endNode : GNode) (fuel : ℕ)
    (hE : cellAt gs endNode ≠ some (CellV.num 1))
    (hN : (get_neighbors tech rl gs dims endNode.2.2 endNode.1 endNode.2.1).filter
      (fun nb => (intLabel (cellAt gs nb)).isSome ∧ cellAt gs nb ≠ some CellV.V) = []) :
    bfs_backtrack tech rl dims gs endNode (fuel + 1) =
      some (.error PyErr.valueError) := by
  unfold bfs_backtrack
  simp only [backtrack, if_neg hE, hN, pyMinBy]

/-- Witness for the amended C6, on the obstruction-wall scenario: the end
cell is unlabeled, its filtered neighbor list is empty, and the router
returns the `ValueError`. -/
theorem C6_unreachable_error_witness :
    cellAt gridsWallL (2, 0, "M1") ≠ some (CellV.num 1) ∧
    (get_neighbors techM1 ["M1"] gridsWallL dimsWall "M1" 2 0).filter
      (fun nb => (intLabel (cellAt gridsWallL nb)).isSome ∧
        cellAt gridsWallL nb ≠ some CellV.V) = [] ∧
    bfs_backtrack techM1 ["M1"] dimsWall gridsWallL (2, 0, "M1") (63 + 1) =
      some (.error PyErr.valueError) :=
  ⟨by decide, by decide,
    C6_unreachable_error techM1 ["M1"] dimsWall gridsWallL (2, 0, "M1") 63
      (by decide) (by decide)⟩

theorem aligned3_zero : aligned3 0 := ⟨0, by norm_num⟩

theorem aligned3_neg (q : ℚ) (h : aligned3 q) : aligned3 (-q) := by
  obtain ⟨k, hk⟩ := h
  exact ⟨-k, by push_cast; linarith⟩

theorem aligned3_add (a b : ℚ) (ha : aligned3 a) (hb : aligned3 b) :
    aligned3 (a + b) := by
  obtain ⟨j, hj⟩ := ha
  obtain ⟨k, hk⟩ := hb
  exact ⟨j + k, by push_cast; linarith⟩

theorem aligned3_mul_unit (o r : ℚ) (ho : aligned3 o)
    (hr : r = 1 ∨ r = -1 ∨ r = 0) : aligned3 (o * r) := by
  obtain ⟨k, hk⟩ := ho
  rcases hr with h | h | h <;> subst h
  · exact ⟨k, by rw [mul_one]; exact hk⟩
  · exact ⟨-k, by push_cast; linarith⟩
  · exact ⟨0, by norm_num⟩

theorem round3_aligned (q : ℚ) (h : aligned3 q) : round3 q = q := by
  obtain ⟨k, hk⟩ := h
  have hp : pyRound (q * 1000) = k := by
    unfold pyRound
    rw [hk]
    norm_num
  unfold round3
  rw [hp, ← hk]
  field_simp

theorem shield_unit (d1 d2 : Dir) :
    ((shield_dict d1 d2).1 = 1 ∨ (shield_dict d1 d2).1 = -1 ∨ (shield_dict d1 d2).1 = 0) ∧
    ((shield_dict d1 d2).2 = 1 ∨ (shield_dict d1 d2).2 = -1 ∨ (shield_dict d1 d2).2 = 0) := by
  cases d1 <;> cases d2 <;> exact ⟨by decide, by decide⟩

theorem endOffsetVec_unit (a b : Pt) :
    ((endOffsetVec a b).1 = 1 ∨ (endOffsetVec a b).1 = -1 ∨ (endOffsetVec a b).1 = 0) ∧
    ((endOffsetVec a b).2 = 1 ∨ (endOffsetVec a b).2 = -1 ∨ (endOffsetVec a b).2 = 0) := by
  unfold endOffsetVec
  split_ifs <;> exact ⟨by decide, by decide⟩

theorem shield_row (d1 d2 : Dir) :
    perpComp d1 (shield_dict d1 d2) = sideSign d1 := by
  cases d1 <;> cases d2 <;> rfl

theorem shield_col (d1 d2 : Dir) (h : d2 ≠ revDir d1) :
    perpComp d2 (shield_dict d1 d2) = sideSign d2 := by
  cases d1 <;> cases d2 <;> first | rfl | exact absurd rfl h

theorem endOffsetVec_perp (a b : Pt) :
    perpComp (dirBetween a b) (endOffsetVec a b) = sideSign (dirBetween a b) := by
  unfold dirBetween endOffsetVec
  split_ifs <;> rfl

theorem startOffsetVec_perp (a b : Pt) :
    perpComp (dirBetween a b) (startOffsetVec a.1 b) = sideSign (dirBetween a b) := by
  unfold dirBetween startOffsetVec
  split_ifs <;> rfl

theorem perpComp_offset (d : Dir) (o : ℚ) (v : ℚ × ℚ) (x y : ℚ) :
    perpComp d (x + o * v.1 - x, y + o * v.2 - y) = o * perpComp d v := by
  cases d <;> simp [perpComp, dirAxis]

theorem dirsOf_cons₂ (a b : Pt) (l : List Pt) :
    dirsOf (a :: b :: l) = dirBetween a b :: dirsOf (b :: l) := by
  simp [dirsOf, pairs_cons₂]

theorem noReversal_tail (d : Dir) (ds : List Dir)
    (h : noReversal (d :: ds)) : noReversal ds := by
  intro t ht
  cases ds with
  | nil => simp [pairs] at ht
  | cons d2 ds2 => exact h t (by rw [pairs_cons₂]; exact List.mem_cons_of_mem _ ht)

theorem noReversal_head (d1 d2 : Dir) (ds : List Dir)
    (h : noReversal (d1 :: d2 :: ds)) : d2 ≠ revDir d1 :=
  h (d1, d2) (by rw [pairs_cons₂]; exact List.mem_cons_self _ _)

theorem courseMid_perp (o : ℚ) (ho : aligned3 o) :
    ∀ (rest : List Pt) (a b : Pt),
      (∀ p ∈ b :: rest, aligned3 p.1.1 ∧ aligned3 p.1.2) →
      noReversal (dirsOf (a :: b :: rest)) →
      (∃ v : ℚ × ℚ,
        (courseMid o a b rest).head? =
          some ((b.1.1 + o * v.1, b.1.2 + o * v.2), b.2) ∧
        perpComp (dirBetween a b) v = sideSign (dirBetween a b)) ∧
      (∀ t ∈ pairs ((b :: rest).zip (courseMid o a b rest)),
        perpComp (dirBetween t.1.1 t.2.1)
            (t.1.2.1.1 - t.1.1.1.1, t.1.2.1.2 - t.1.1.1.2) =
          o * sideSign (dirBetween t.1.1 t.2.1) ∧
        perpComp (dirBetween t.1.1 t.2.1)
            (t.2.2.1.1 - t.2.1.1.1, t.2.2.1.2 - t.2.1.1.2) =
          o * sideSign (dirBetween t.1.1 t.2.1)) := by
  intro rest
  induction rest with
  | nil =>
    intro a b hal _
    obtain ⟨hbx, hby⟩ := hal b (List.mem_cons_self _ _)
    have h1 : round3 (b.1.1 + o * (endOffsetVec a b).1) = b.1.1 + o * (endOffsetVec a b).1 :=
      round3_aligned _ (aligned3_add _ _ hbx
        (aligned3_mul_unit _ _ ho (endOffsetVec_unit a b).1))
    have h2 : round3 (b.1.2 + o * (endOffsetVec a b).2) = b.1.2 + o * (endOffsetVec a b).2 :=
      round3_aligned _ (aligned3_add _ _ hby
        (aligned3_mul_unit _ _ ho (endOffsetVec_unit a b).2))
    constructor
    · exact ⟨endOffsetVec a b, by simp [courseMid, h1, h2], endOffsetVec_perp a b⟩
    · intro t ht
      simp [courseMid, pairs, List.zip] at ht
  | cons c rest2 ih =>
    intro a b hal hnr
    obtain ⟨hbx, hby⟩ := hal b (List.mem_cons_self _ _)
    have hal2 : ∀ p ∈ c :: rest2, aligned3 p.1.1 ∧ aligned3 p.1.2 := fun p hp =>
      hal p (List.mem_cons_of_mem _ hp)
    have hnr2 : noReversal (dirsOf (b :: c :: rest2)) := by
      rw [dirsOf_cons₂] at hnr
      exact noReversal_tail _ _ hnr
    have hcol : dirBetween b c ≠ revDir (dirBetween a b) := by
      rcases rest2 with _ | ⟨e, rest3⟩
      · rw [dirsOf_cons₂, dirsOf_cons₂] at hnr
        exact noReversal_head _ _ _ hnr
      · rw [dirsOf_cons₂, dirsOf_cons₂] at hnr
        exact noReversal_head _ _ _ hnr
    obtain ⟨⟨v2, hv2head, hv2row⟩, htail⟩ := ih b c hal2 hnr2
    have h1 : round3 (b.1.1 + o * (shield_dict (dirBetween a b) (dirBetween b c)).1) =
        b.1.1 + o * (shield_dict (dirBetween a b) (dirBetween b c)).1 :=
      round3_aligned _ (aligned3_add _ _ hbx
        (aligned3_mul_unit _ _ ho (shield_unit _ _).1))
    have h2 : round3 (b.1.2 + o * (shield_dict (dirBetween a b) (dirBetween b c)).2) =
        b.1.2 + o * (shield_dict (dirBetween a b) (dirBetween b c)).2 :=
      round3_aligned _ (aligned3_add _ _ hby
        (aligned3_mul_unit _ _ ho (shield_unit _ _).2))
    constructor
    · exact ⟨shield_dict (dirBetween a b) (dirBetween b c),
        by simp [courseMid, h1, h2], shield_row _ _⟩
    · intro t ht
      rcases hcm : courseMid o b c rest2 with _ | ⟨qc, cmt⟩
      · rw [hcm] at hv2head
        simp at hv2head
      · rw [hcm] at hv2head
        simp only [List.head?_cons, Option.some.injEq] at hv2head
        have hexp : (b :: c :: rest2).zip (courseMid o a b (c :: rest2)) =
            (b, ((round3 (b.1.1 + o * (shield_dict (dirBetween a b) (dirBetween b c)).1),
                  round3 (b.1.2 + o * (shield_dict (dirBetween a b) (dirBetween b c)).2)),
                 b.2)) :: (c, qc) :: rest2.zip cmt := by
          simp [courseMid, hcm, List.zip]
        rw [hexp, pairs_cons₂] at ht
        rcases List.mem_cons.mp ht with hfirst | hrest
        · subst hfirst
          constructor
          · dsimp only
            rw [h1, h2, perpComp_offset]
            rw [shield_col _ _ hcol]
          · dsimp only
            rw [hv2head]
            dsimp only
            rw [perpComp_offset, hv2row]
        · have : t ∈ pairs ((c :: rest2).zip (courseMid o b c rest2)) := by
            rw [hcm]
            simpa [List.zip] using hrest
          exact htail t this

theorem offsetCourse_perp (o : ℚ) (ho : aligned3 o) (a b : Pt) (rest : List Pt)
    (hal : ∀ p ∈ a :: b :: rest, aligned3 p.1.1 ∧ aligned3 p.1.2)
    (hnr : noReversal (dirsOf (a :: b :: rest))) :
    busOffsetAt (a :: b :: rest) (offsetCourse o (a :: b :: rest)) o := by
  intro t ht
  have hal2 : ∀ p ∈ b :: rest, aligned3 p.1.1 ∧ aligned3 p.1.2 := fun p hp =>
    hal p (List.mem_cons_of_mem _ hp)
  obtain ⟨⟨v, hvhead, hvrow⟩, htail⟩ := courseMid_perp o ho rest a b hal2 hnr
  rcases hcm : courseMid o a b rest with _ | ⟨qb, cmt⟩
  · rw [hcm] at hvhead
    simp at hvhead
  · rw [hcm] at hvhead
    simp only [List.head?_cons, Option.some.injEq] at hvhead
    have hexp : (a :: b :: rest).zip (offsetCourse o (a :: b :: rest)) =
        (a, ((a.1.1 + o * (startOffsetVec a.1 b).1,
              a.1.2 + o * (startOffsetVec a.1 b).2), a.2)) ::
          (b, qb) :: rest.zip cmt := by
      simp [offsetCourse, hcm, List.zip]
    rw [hexp, pairs_cons₂] at ht
    rcases List.mem_cons.mp ht with hfirst | hrest
    · subst hfirst
      constructor
      · dsimp only
        rw [perpComp_offset, startOffsetVec_perp]
      · dsimp only
        rw [hvhead]
        dsimp only
        rw [perpComp_offset, hvrow]
    · have : t ∈ pairs ((b :: rest).zip (courseMid o a b rest)) := by
        rw [hcm]
        simpa [List.zip] using hrest
      exact htail t this

theorem mem_zip_self {α : Type} : ∀ {l : List α} {x : α × α}, x ∈ l.zip l → x.1 = x.2 := by
  intro l
  induction l with
  | nil => intro x hx; simp [List.zip] at hx
  | cons a l ih =>
    intro x hx
    rcases List.mem_cons.mp hx with h | h
    · rw [h]
    · exact ih h

theorem pairs_mem {α : Type} : ∀ (l : List α) (t : α × α), t ∈ pairs l → t.1 ∈ l ∧ t.2 ∈ l := by
  intro l
  induction l with
  | nil => intro t ht; simp [pairs] at ht
  | cons a l ih =>
    intro t ht
    cases l with
    | nil => simp [pairs] at ht
    | cons b l2 =>
      rw [pairs_cons₂] at ht
      rcases List.mem_cons.mp ht with h | h
      · subst h
        exact ⟨List.mem_cons_self _ _, List.mem_cons_of_mem _ (List.mem_cons_self _ _)⟩
      · obtain ⟨h1, h2⟩ := ih t h
        exact ⟨List.mem_cons_of_mem _ h1, List.mem_cons_of_mem _ h2⟩

theorem perpComp_zero_vec (d : Dir) : perpComp d 0 = 0 := by
  cases d <;> rfl

theorem busOffsetAt_self (l : List Pt) : busOffsetAt l l 0 := by
  intro t ht
  have h1 := mem_zip_self (pairs_mem _ t ht).1
  have h2 := mem_zip_self (pairs_mem _ t ht).2
  rw [← h1, ← h2]
  constructor <;> · rw [zero_mul]; simp [perpComp_zero_vec, sub_self]

/-- Claim C8 as amended: for `bus_size = 3` and spacing `s`, `bus_router`
produces exactly three courses — the primary itself (the center route,
present because the size is odd) and one derived course on each side, built
with the full spacing and alternating signs `+s`, `-s`. Provided the primary
course has no U-turn (no segment direction reverses its predecessor) and all
coordinates and `s` lie on the 0.001 rounding grid, the derived courses run
parallel to the primary at constant signed perpendicular amounts `+s`, `0`
and `-s`: on every segment, both endpoints of each course sit at
perpendicular offset `c * sideSign d` from the corresponding primary points
(`d` the segment's direction), so the three per-segment offsets are
`{-s, 0, +s}` up to the side convention of `shield_dict`. Without the
no-U-turn hypothesis the property fails (see the counterexample): the
original claim's "at every segment" is too strong for reversing courses. -/
theorem C8_bus_courses (manh : List Pt) (a b : Pt) (rest : List Pt) (s : ℚ)
    (hm : manh = a :: b :: rest)
    (hs : aligned3 s)
    (hal : ∀ p ∈ manh, aligned3 p.1.1 ∧ aligned3 p.1.2)
    (hnr : noReversal (dirsOf manh)) :
    busCourses3 manh s = [manh, offsetCourse s manh, offsetCourse (-s) manh] ∧
    busOffsetAt manh manh 0 ∧
    busOffsetAt manh (offsetCourse s manh) s ∧
    busOffsetAt manh (offsetCourse (-s) manh) (-s) := by
  subst hm
  exact ⟨rfl, busOffsetAt_self _,
    offsetCourse_perp s hs a b rest hal hnr,
    offsetCourse_perp (-s) (aligned3_neg s hs) a b rest hal hnr⟩

/-- Witness for the amended C8: on the one-turn primary `manhL3` with
spacing 2, the hypotheses hold and the three courses sit at constant
perpendicular amounts 0, +2 and -2. -/
theorem C8_bus_courses_witness :
    aligned3 2 ∧ (∀ p ∈ manhL3, aligned3 p.1.1 ∧ aligned3 p.1.2) ∧
    noReversal (dirsOf manhL3) ∧
    (busCourses3 manhL3 2 = [manhL3, offsetCourse 2 manhL3, offsetCourse (-2) manhL3] ∧
      busOffsetAt manhL3 manhL3 0 ∧
      busOffsetAt manhL3 (offsetCourse 2 manhL3) 2 ∧
      busOffsetAt manhL3 (offsetCourse (-2) manhL3) (-2)) := by
  have hs : aligned3 2 := ⟨2000, by norm_num⟩
  have hal : ∀ p ∈ manhL3, aligned3 p.1.1 ∧ aligned3 p.1.2 := by
    intro p hp
    fin_cases hp
    · exact ⟨⟨0, by norm_num⟩, ⟨0, by norm_num⟩⟩
    · exact ⟨⟨4000, by norm_num⟩, ⟨0, by norm_num⟩⟩
    · exact ⟨⟨4000, by norm_num⟩, ⟨3000, by norm_num⟩⟩
  have hnr : noReversal (dirsOf manhL3) := by decide
  exact ⟨hs, hal, hnr,
    C8_bus_courses manhL3 ((0, 0), "M1") ((4, 0), "M1") [((4, 3), "M1")] 2 rfl hs hal hnr⟩

/-- Counterexample for claim C8: on the U-turn primary `manhU3` (travel '+x'
to (5,0), then '-x' back to (2,0)) with spacing 2, the derived course on the
`+2` side is [(0,2), (5,2), (2,-2)]: its perpendicular offset from the
primary flips from +2 on the first segment to -2 at the end of the second,
so no constant per-segment perpendicular amount — +2, -2 or 0 — describes
it, contradicting the claim's "offsets {-2, 0, +2} at every segment". -/
theorem C8_cex :
    offsetCourse 2 manhU3 =
      [((0, 2), "M1"), ((5, 2), "M1"), ((2, -2), "M1")] ∧
    dirsOf manhU3 = [Dir.px, Dir.mx] ∧
    ¬ noReversal (dirsOf manhU3) ∧
    ¬ busOffsetAt manhU3 (offsetCourse 2 manhU3) 2 ∧
    ¬ busOffsetAt manhU3 (offsetCourse 2 manhU3) (-2) ∧
    ¬ busOffsetAt manhU3 (offsetCourse 2 manhU3) 0 := by
  have hco : offsetCourse 2 manhU3 =
      [((0, 2), "M1"), ((5, 2), "M1"), ((2, -2), "M1")] := by
    norm_num [manhU3, offsetCourse, courseMid, startOffsetVec, endOffsetVec,
      shield_dict, dirBetween, round3, pyRound]
  have hpairs : pairs (manhU3.zip (offsetCourse 2 manhU3)) =
      [((((0, 0), "M1"), (((0:ℚ), (2:ℚ)), "M1")), (((5, 0), "M1"), (((5:ℚ), (2:ℚ)), "M1"))),
       ((((5, 0), "M1"), (((5:ℚ), (2:ℚ)), "M1")), (((2, 0), "M1"), (((2:ℚ), (-2:ℚ)), "M1")))] := by
    rw [hco]
    rfl
  refine ⟨hco, by decide, by decide, ?_, ?_, ?_⟩
  · intro h
    have h2 := h ((((5, 0), "M1"), (((5:ℚ), (2:ℚ)), "M1")),
        (((2, 0), "M1"), (((2:ℚ), (-2:ℚ)), "M1")))
      (by rw [hpairs]; exact List.mem_cons_of_mem _ (List.mem_cons_self _ _))
    have h21 := h2.1
    norm_num [dirBetween, perpComp, dirAxis, sideSign] at h21
  · intro h
    have h2 := h ((((5, 0), "M1"), (((5:ℚ), (2:ℚ)), "M1")),
        (((2, 0), "M1"), (((2:ℚ), (-2:ℚ)), "M1")))
      (by rw [hpairs]; exact List.mem_cons_of_mem _ (List.mem_cons_self _ _))
    have h22 := h2.2
    norm_num [dirBetween, perpComp, dirAxis, sideSign] at h22
  · intro h
    have h2 := h ((((5, 0), "M1"), (((5:ℚ), (2:ℚ)), "M1")),
        (((2, 0), "M1"), (((2:ℚ), (-2:ℚ)), "M1")))
      (by rw [hpairs]; exact List.mem_cons_of_mem _ (List.mem_cons_self _ _))
    have h21 := h2.1
    norm_num [dirBetween, perpComp, dirAxis, sideSign] at h21
